import Mathlib

/-!
Verification development for the Wiz CVE scraper's Comprehensive Collection
Engine (`src/scraper/WizCVEScraper.js` plus the checkpoint helpers in
`src/utils/helpers.js`).

The JavaScript code is embedded shallowly:

* Network I/O is represented by an explicit environment `Env`: one function
  for the Algolia page request (`makeAlgoliaRequest`) and one for the per-CVE
  detail-page fetch inside `extractAdditionalResources`.  A request that
  throws (transport error or invalid response structure) is modelled as
  `none` / `FetchOutcome.err`.
* The regex extraction of the "Additional resources" section of the detail
  HTML is abstracted: a successfully fetched detail page carries
  `Option (List (String × String))` - `none` when the section regex does not
  match, otherwise the raw `(href, text)` pairs found by the link regex.
  The filtering (`url && title && url.startsWith('http')`, after `trim`) and
  the categorisation are translated literally.
* JavaScript `Map` objects are association lists kept in insertion order;
  `Map.set` replaces the value of an existing key in place and appends new
  keys at the end.
* JS truthiness is made explicit (`truthyS`, `truthyN`): empty strings, 0,
  `undefined`/`null` are falsy; objects and arrays are truthy.  In
  particular the guard `if (cveData && validateCVEData(cveData))` tests the
  truthiness of the Joi *result object*, which is always truthy.
* `new Date(x).toISOString().split('T')[0]` is modelled by an explicit date
  parser `dateParse : String → Option String` carried in the environment:
  `none` models `new Date(x)` being an Invalid Date, on which `toISOString`
  throws a `RangeError` - the transform's `catch` then returns `null` and
  the hit is dropped by the insert guard.
* The final `processedCVEs.sort((a, b) => a.id.localeCompare(b.id))` throws
  a `TypeError` when a record whose `id` is `undefined` is passed as the
  comparator's left operand.  `Array.prototype.sort` never calls the
  comparator on arrays of length ≤ 1, and its call pattern on longer
  arrays is implementation-defined; `sortCVEData` models the typical
  engine behaviour in which an id-less record in a multi-element array is
  eventually compared on the left: the sort throws in that case, and with
  every id present the comparator is total and sorts by the id order.
* The cooperative concurrent schedule of the sweeps is modelled as one
  sequential schedule (the unfiltered sweep, then each technology filter in
  order); the merge loop in the source contains no `await`, so a merge is
  atomic under the event-loop semantics, and the capacity theorems are also
  proved for an arbitrary sequence of merges (`mergeSeq`).
-/

/-- One technology of an Algolia hit (`affectedTechnologies` entries carry a
`name` field used by the transformer). -/
structure Tech where
  name : String
deriving DecidableEq, Repr

/-- A raw Algolia hit, with exactly the fields `transformAlgoliaHitToCVE`
reads.  `Option` marks fields that may be absent (`undefined`). -/
structure Hit where
  externalId : Option String
  name : Option String
  id : Option String
  severity : Option String
  cvssScore : Option Int
  score : Option Int
  affectedTechnologies : Option (List Tech)
  affectedSoftware : Option (List String)
  publishedAt : Option String
  description : Option String
  sourceUrl : Option String
  hasCisaKevExploit : Option Bool
  hasFix : Option Bool
  isHighProfileThreat : Option Bool
  exploitable : Option Bool
deriving DecidableEq, Repr

/-- One categorised external reference produced by
`extractAdditionalResources`. -/
structure ResourceLink where
  title : String
  url : String
  type : String
deriving DecidableEq, Repr

/-- The `additionalResources` sub-object of a transformed record. -/
structure AdditionalResources where
  sourceUrl : String
  affectedSoftware : List String
  affectedTechnologies : List Tech
  externalLinks : List ResourceLink
deriving DecidableEq, Repr

/-- The record shape built by `transformAlgoliaHitToCVE`.  `id` is
`Option String` because `hit.externalId || hit.name || hit.id` evaluates to
`undefined` when all three candidates are absent; `score` is `none` when the
JS value is the string `'N/A'`. -/
structure CVERec where
  id : Option String
  severity : String
  score : Option Int
  technologies : String
  component : String
  publishDate : String
  description : String
  sourceUrl : String
  hasCisaKevExploit : Bool
  hasFix : Bool
  isHighProfileThreat : Bool
  exploitable : Bool
  additionalResources : AdditionalResources
deriving DecidableEq, Repr

/-- JS truthiness of a possibly-absent string: `undefined` and `''` are
falsy. -/
def truthyS : Option String → Bool
  | none => false
  | some s => !(s = "")

/-- JS truthiness of a possibly-absent number: `undefined` and `0` are
falsy. -/
def truthyN : Option Int → Bool
  | none => false
  | some n => !(n = 0)

/-- JS `a || b` on possibly-absent strings. -/
def jsOrS (a b : Option String) : Option String :=
  if truthyS a then a else b

/-- JS `a || b || 'N/A'` on possibly-absent numbers; `none` stands for the
`'N/A'` fallback. -/
def jsOrN (a b : Option Int) : Option Int :=
  if truthyN a then a else if truthyN b then b else none

/-- JS `a || d` for a string with a non-empty default. -/
def jsStrOr (a : Option String) (d : String) : String :=
  match a with
  | some s => if s = "" then d else s
  | none => d

/-- ASCII lower-casing of one character (JS `toLowerCase` restricted to the
ASCII range, which is all the categorisation rules compare against). -/
def chLower (c : Char) : Char :=
  if 'A' ≤ c ∧ c ≤ 'Z' then Char.ofNat (c.toNat + 32) else c

/-- JS `s.toLowerCase()`. -/
def strLower (s : String) : String :=
  ⟨s.data.map chLower⟩

/-- Whitespace recognised by `cleanText` and `trim` (`\s`, `\r`, `\n`,
`\t`). -/
def isWsChar (c : Char) : Bool :=
  c = ' ' || c = '\t' || c = '\n' || c = '\r'

/-- JS `s.trim()`. -/
def strTrim (s : String) : String :=
  ⟨((s.data.dropWhile isWsChar).reverse.dropWhile isWsChar).reverse⟩

/-- JS `s.startsWith(pre)`. -/
def strStartsWith (s pre : String) : Bool :=
  pre.data.isPrefixOf s.data

/-- The whitespace-separated words of a character list, accumulator style. -/
def wordsAux : List Char → List Char → List String
  | [], cur => if cur.isEmpty then [] else [⟨cur.reverse⟩]
  | c :: rest, cur =>
    if isWsChar c then
      (if cur.isEmpty then wordsAux rest [] else (⟨cur.reverse⟩ : String) :: wordsAux rest [])
    else wordsAux rest (c :: cur)

/-- The `cleanText` helper from `utils/helpers.js`: trim, collapse every whitespace run
to a single space (after which the `[\r\n\t]` pass and the final trim are
no-ops). -/
def cleanText (s : String) : String :=
  String.intercalate " " (wordsAux s.data [])

/-- The `publishDate` field computation
`hit.publishedAt ? new Date(hit.publishedAt).toISOString().split('T')[0] : 'N/A'`:
a falsy `publishedAt` gives `'N/A'`; a truthy one goes through the date
parser, whose `none` models the `RangeError` thrown by `toISOString` on an
Invalid Date (so the whole record construction throws). -/
def jsPublishDate (dateParse : String → Option String) (o : Option String) : Option String :=
  match o with
  | some s => if s = "" then some "N/A" else dateParse s
  | none => some "N/A"

/-- Boolean substring test on character lists (JS `String.includes`). -/
def hasSub (hay sub : List Char) : Bool :=
  match hay with
  | [] => sub.isEmpty
  | _ :: t => sub.isPrefixOf hay || hasSub t sub

/-- JS `s.includes(sub)`. -/
def strIncludes (s sub : String) : Bool :=
  hasSub s.toList sub.toList

/-- The source's `categorizeResourceType(url, title)`: the fixed ordered substring rules,
translated literally (both inputs lower-cased first). -/
def categorizeResourceType (url title : String) : String :=
  if strIncludes (strLower url) "nvd.nist.gov" then "NVD"
  else if strIncludes (strLower url) "github.com" then "GitHub"
  else if strIncludes (strLower url) "vuldb.com" then "VulDB"
  else if strIncludes (strLower url) "cve.mitre.org" then "MITRE"
  else if strIncludes (strLower url) "exploit-db.com" then "Exploit-DB"
  else if strIncludes (strLower url) "security." || strIncludes (strLower title) "advisory" then
    "Security Advisory"
  else if strIncludes (strLower title) "patch" || strIncludes (strLower title) "fix" then
    "Patch/Fix"
  else if strIncludes (strLower title) "poc" || strIncludes (strLower title) "proof of concept" then
    "Proof of Concept"
  else "Other"

/-- The same rules written the way the spec describes them: an ordered list
of (predicate, category) pairs, scanned front to back, with `"Other"` as the
default.  Used to state the "fixed ordered substring rules" half of the
categorisation claim. -/
def categoryRules : List ((String → String → Bool) × String) :=
  [ (fun u _ => strIncludes u "nvd.nist.gov", "NVD"),
    (fun u _ => strIncludes u "github.com", "GitHub"),
    (fun u _ => strIncludes u "vuldb.com", "VulDB"),
    (fun u _ => strIncludes u "cve.mitre.org", "MITRE"),
    (fun u _ => strIncludes u "exploit-db.com", "Exploit-DB"),
    (fun u t => strIncludes u "security." || strIncludes t "advisory", "Security Advisory"),
    (fun _ t => strIncludes t "patch" || strIncludes t "fix", "Patch/Fix"),
    (fun _ t => strIncludes t "poc" || strIncludes t "proof of concept", "Proof of Concept") ]

/-- First matching rule of the ordered list, default `"Other"`. -/
def firstMatchingCategory (url title : String) : String :=
  match categoryRules.find? (fun rule => rule.1 (strLower url) (strLower title)) with
  | some rule => rule.2
  | none => "Other"

/-- Outcome of the detail-page fetch performed by
`extractAdditionalResources`: a thrown error (timeout, transport failure),
or a fetched document in which the "Additional resources" section regex
either fails (`page none`) or yields raw `(href, text)` link pairs. -/
inductive FetchOutcome where
  | err : String → FetchOutcome
  | page : Option (List (String × String)) → FetchOutcome
deriving DecidableEq, Repr

/-- The source's `extractAdditionalResources(cveId)`.  The whole body is wrapped in
`try/catch` returning `[]`: a `none` identifier makes
`cveId.toLowerCase()` throw a `TypeError` (caught → `[]`), a fetch error is
caught → `[]`, a missing section yields `[]`, and each raw link pair is
trimmed, kept only when both parts are non-empty and the URL starts with
`http`, and categorised. -/
def extractAdditionalResources (detail : String → FetchOutcome) (cveId : Option String) :
    List ResourceLink :=
  match cveId with
  | none => []
  | some cid =>
    match detail (strLower cid) with
    | .err _ => []
    | .page none => []
    | .page (some rawLinks) =>
      rawLinks.filterMap fun p =>
        let url := strTrim p.1
        let title := strTrim p.2
        if (!(url = "") && !(title = "") && strStartsWith url "http") then
          some ⟨title, url, categorizeResourceType url title⟩
        else none

/-- JS `hit.externalId || hit.name || hit.id`. -/
def cveIdOf (hit : Hit) : Option String :=
  jsOrS (jsOrS hit.externalId hit.name) hit.id

/-- Does the hit contain a non-empty identifier candidate? -/
def hasIdCandidate (hit : Hit) : Bool :=
  truthyS hit.externalId || truthyS hit.name || truthyS hit.id

/-- The source's `transformAlgoliaHitToCVE(hit)`.  The function `await`s the
detail-page fetch (`extractAdditionalResources`), so the fetch environment
is an explicit argument, and it builds the `publishDate` field through the
date parser.  The `catch` branch returning `null` corresponds to the
`RangeError` raised during record construction when a truthy `publishedAt`
is unparseable (`jsPublishDate ... = none`); no other expression of the
body can throw on a well-typed hit. -/
def transformAlgoliaHitToCVE (detail : String → FetchOutcome)
    (dateParse : String → Option String) (hit : Hit) : Option CVERec :=
  let cveId := cveIdOf hit
  let links := extractAdditionalResources detail cveId
  match jsPublishDate dateParse hit.publishedAt with
  | none => none
  | some pd =>
    some
    { id := cveId
      severity := jsStrOr hit.severity "N/A"
      score := jsOrN hit.cvssScore hit.score
      technologies :=
        match hit.affectedTechnologies with
        | some techs => String.intercalate ", " (techs.map Tech.name)
        | none => "N/A"
      component :=
        match hit.affectedSoftware with
        | some sw =>
          String.intercalate ", " (sw.take 3) ++ (if 3 < sw.length then "..." else "")
        | none => "N/A"
      publishDate := pd
      description := cleanText (hit.description.getD "")
      sourceUrl := hit.sourceUrl.getD ""
      hasCisaKevExploit := hit.hasCisaKevExploit.getD false
      hasFix := hit.hasFix.getD false
      isHighProfileThreat := hit.isHighProfileThreat.getD false
      exploitable := hit.exploitable.getD false
      additionalResources :=
        { sourceUrl := hit.sourceUrl.getD ""
          affectedSoftware := hit.affectedSoftware.getD []
          affectedTechnologies := hit.affectedTechnologies.getD []
          externalLinks := links } }

/-- Does record construction throw for this hit?  True exactly when
`publishedAt` is truthy but unparseable, in which case
`transformAlgoliaHitToCVE` returns null whatever the identifier. -/
def pubDateThrows (dateParse : String → Option String) (hit : Hit) : Bool :=
  (jsPublishDate dateParse hit.publishedAt).isNone

/-- The object returned by Joi's `schema.validate` in `validateCVEData`. -/
structure JoiResult where
  error : Option String
deriving DecidableEq, Repr

/-- The `validateCVEData` helper from `utils/helpers.js`.  Its Joi schema requires a
`cveId` field, which the records built by `transformAlgoliaHitToCVE` never
have (they carry `id` instead), so the result always has `error` set. -/
def validateCVEData (_r : CVERec) : JoiResult :=
  { error := some "cveId is required" }

/-- JS truthiness of the validation *result object*: an object is always
truthy, so the guard `if (cveData && validateCVEData(cveData))` never drops
a transformed record. -/
def jsTruthyObj (_v : JoiResult) : Bool :=
  true

/-- A JS `Map` keyed by the record identifier (which can be `undefined`),
kept in insertion order. -/
abbrev JMap : Type :=
  List (Option String × CVERec)

/-- Does the map have the key? -/
def mapHasKey (m : JMap) (k : Option String) : Bool :=
  m.any (fun e => e.1 = k)

/-- JS `Map.set`: replace the value of an existing key in place, append a new
key at the end. -/
def mapSet (m : JMap) (k : Option String) (v : CVERec) : JMap :=
  if mapHasKey m k then m.map (fun e => if e.1 = k then (k, v) else e)
  else m ++ [(k, v)]

/-- JS `Map.get`: the value stored under a key. -/
def mapLookup (m : JMap) (k : Option String) : Option CVERec :=
  (m.find? (fun e => e.1 = k)).map (fun e => e.2)

/-- The scraper options that influence data flow (delays and retry counts
only affect timing). -/
structure Opts where
  maxCVEs : Option Nat
  hitsPerPage : Nat
  useComprehensiveScraping : Bool
  checkpointInterval : Nat
deriving DecidableEq, Repr

/-- The guard `cveMap.size >= this.options.maxCVEs && this.options.maxCVEs > 0`; with
`maxCVEs` unset (`null`) the conjunction is false. -/
def sharedCapHit (opts : Opts) (size : Nat) : Bool :=
  match opts.maxCVEs with
  | some c => decide (c ≤ size) && decide (0 < c)
  | none => false

/-- The break condition of the per-hit loop in `fetchCVEsWithFilters`:
shared-map cap reached, or the local map has `maxHits` entries. -/
def breakCond (opts : Opts) (sharedSize maxHits : Nat) (localM : JMap) : Bool :=
  sharedCapHit opts sharedSize || decide (maxHits ≤ localM.length)

/-- The environment of a run: `request filters page hitsPerPage` models
`makeAlgoliaRequest` (`none` = the request threw or had an invalid
structure, otherwise `nbHits` and the page's hits); `detail` models the
detail-page fetch of `extractAdditionalResources`; `now` is the clock used
for `scrapeDate`. -/
structure Env where
  request : List String → Nat → Nat → Option (Nat × List Hit)
  detail : String → FetchOutcome
  dateParse : String → Option String
  now : String

/-- The `for (const hit of hits)` loop of `fetchCVEsWithFilters`: stop when
a cap is hit, otherwise transform the hit and store it in the local map.
The guard `if (cveData && validateCVEData(cveData))` skips a null
`cveData` (a hit whose record construction threw); for a non-null record
the second conjunct is the always-truthy Joi result object, so the record
is stored. -/
def hitLoop (detail : String → FetchOutcome) (dateParse : String → Option String)
    (opts : Opts) (sharedSize maxHits : Nat) :
    List Hit → JMap → JMap
  | [], localM => localM
  | h :: rest, localM =>
    if breakCond opts sharedSize maxHits localM then localM
    else
      match transformAlgoliaHitToCVE detail dateParse h with
      | some cve =>
        hitLoop detail dateParse opts sharedSize maxHits rest
          (if jsTruthyObj (validateCVEData cve) then mapSet localM cve.id cve else localM)
      | none => hitLoop detail dateParse opts sharedSize maxHits rest localM

/-- The page loop of `fetchCVEsWithFilters`, also recording the fetched page
indices.  A page whose request throws is logged and skipped (the loop goes
on); after a successful page the loop breaks if a cap is reached.  The
shared map is not mutated while the sweep pages (the merge happens after
the loop), so its size is a constant of the loop. -/
def pagesGo (env : Env) (opts : Opts) (filters : List String) (sharedSize maxHits : Nat) :
    Nat → Nat → JMap → List Nat → JMap × List Nat
  | 0, _, localM, visited => (localM, visited)
  | Nat.succ r, p, localM, visited =>
    match env.request filters p opts.hitsPerPage with
    | none => pagesGo env opts filters sharedSize maxHits r (p + 1) localM (visited ++ [p])
    | some (_, hits) =>
      let localM' := hitLoop env.detail env.dateParse opts sharedSize maxHits hits localM
      if breakCond opts sharedSize maxHits localM' then (localM', visited ++ [p])
      else pagesGo env opts filters sharedSize maxHits r (p + 1) localM' (visited ++ [p])

/-- The final merge of `fetchCVEsWithFilters`: copy the local map into the
shared map, checking the cap before every insert.  The source loop contains
no `await`, so it is atomic under the event-loop semantics. -/
def mergeLoop (opts : Opts) : JMap → List (Option String × CVERec) → JMap
  | shared, [] => shared
  | shared, (k, v) :: rest =>
    if sharedCapHit opts shared.length then shared
    else mergeLoop opts (mapSet shared k v) rest

/-- JS `Math.ceil(a / b)` on naturals. -/
def ceilDiv (a b : Nat) : Nat :=
  (a + b - 1) / b

/-- The source's `fetchCVEsWithFilters(filters, cveMap, maxHits)`.  Returns the updated
shared map and the list of page indices the sweep fetched.  A probe failure
is caught by the outer `try/catch` and leaves the shared map untouched. -/
def fetchCVEsWithFilters (env : Env) (opts : Opts) (filters : List String) (cveMap : JMap)
    (maxHits : Nat) : JMap × List Nat :=
  match env.request filters 0 1 with
  | none => (cveMap, [])
  | some (nb, _) =>
    let totalHits := min nb maxHits
    let totalPages := ceilDiv totalHits opts.hitsPerPage
    if totalHits = 0 then (cveMap, [])
    else
      let res := pagesGo env opts filters cveMap.length maxHits totalPages 0 [] []
      (mergeLoop opts cveMap res.1, res.2)

/-- The fixed technology filter list of the scraper (`this.technologyFilters`);
only its length and membership matter to the claims, but the enumeration is
the source's. -/
def technologyFilters : List String :=
  [ "LinuxDebian||Linux Debian", "LinuxUbuntu||Linux Ubuntu", "LinuxRedHat||Linux Red Hat",
    "WordPress||WordPress", "LinuxOpenSUSE||Linux openSUSE", "NixOS||NixOS",
    "LinuxGentoo||Linux Gentoo", "LinuxOracle||Linux Oracle", "Homebrew||Homebrew",
    "AmazonLinux||Amazon Linux", "LinuxFedora||Linux Fedora", "LinuxKernel||Linux Kernel",
    "LinuxAlpine||Linux Alpine", "Java||Java", "LinuxPhoton||Linux Photon", "PHP||PHP",
    "AlmaLinux||Alma Linux", "CBLMariner||CBL Mariner",
    "AlibabaCloudLinux||Alibaba Cloud Linux (Aliyun Linux)", "JavaScript||JavaScript",
    "LinuxCentOS||Linux CentOS", "Python||Python", "GoogleChrome||Google Chrome",
    "MozillaFirefox||Mozilla Firefox", "Chromium||Chromium", "Chainguard||Chainguard",
    "RockyLinux||Rocky Linux", "macOS||macOS",
    "AdobeAcrobatReaderClassic||Adobe Acrobat Reader Classic",
    "AdobeAcrobatClassic||Adobe Acrobat Classic",
    "AdobeAcrobatReaderContinuous||Adobe Acrobat Reader Continuous",
    "AdobeAcrobatContinuous||Adobe Acrobat Continuous",
    "AdobeReaderDCContinuous||Adobe Reader DC Continuous", "Rust||Rust",
    "MozillaThunderbird||Mozilla Thunderbird", "MySQL||MySQL", "AppleSafari||Apple Safari",
    "AdobeAcrobat||Adobe Acrobat", "AdobeReaderDCClassic||Adobe Reader DC Classic",
    "MozillaFirefoxESR||Mozilla Firefox ESR",
    "ContainerOptimizedOS||Container-Optimized OS", "Wolfi||Wolfi",
    "MySQLClientCAPI||MySQL Client C API", "GitLab||GitLab",
    "GitlabEnterprise||Gitlab Enterprise", "AdobeFlashPlayer||Adobe Flash Player",
    "ActiveXControl||ActiveX Control", "OracleJRE||Oracle JRE", "OracleJDK||Oracle JDK",
    "JRE||JRE", "Ruby||Ruby", "AdobeExperienceManager||Adobe Experience Manager",
    "FoxitPDFReader||Foxit PDF Reader", "AdobeReader||Adobe Reader",
    "PepperFlashforGoogleChrome||Pepper Flash for Google Chrome",
    "MozillaSeaMonkey||Mozilla SeaMonkey", "AppleiTunes||Apple iTunes", "JDK||JDK",
    "AmazonCorrettoJDK||Amazon Corretto JDK", "FoxitPhantomPDF||Foxit PhantomPDF",
    "EclipseAdoptiumJDK||Eclipse Adoptium JDK", "OpenJDKJDK||OpenJDK JDK",
    "ImageMagick||ImageMagick", "Wireshark||Wireshark", "Jenkins||Jenkins",
    "F5BIGIPVirtualEdition||F5 BIG-IP Virtual Edition (tier - best)",
    "OpenJDKJRE||OpenJDK JRE", "CSharp||C#", "AdobeAIR||Adobe AIR",
    "RedHatEnterpriseLinuxCoreOS||Red Hat Enterprise Linux CoreOS (RHCOS)",
    "F5BIGIPVirtualEdition||F5 BIG-IP Virtual Edition",
    "OracleDatabaseServer||Oracle Database Server", "NodeJS||Node.js",
    "PerconaServerforMySQL||Percona Server for MySQL",
    "AdobeFlashPlayerESR||Adobe Flash Player ESR", "Ffmpeg||Ffmpeg",
    "F5BIGIPVirtualEdition||F5 BIG-IP Virtual Edition (tier - better)",
    "F5BIGIPAdvancedFirewallManager||F5 BIG-IP Advanced Firewall Manager",
    "TensorFlow||TensorFlow", "Bottlerocket||Bottlerocket",
    "MariaDBServer||MariaDB Server", "VirtualBox||VirtualBox",
    "OpenShiftNode||OpenShift Node",
    "IBMWebSphereApplicationServer||IBM WebSphere Application Server", "IBMJDK||IBM JDK",
    "QEMU||QEMU", "cPanel||cPanel", "IBMWebSphereAppServer||IBM WebSphere App Server",
    "MicrosoftInternetExplorer9||Microsoft Internet Explorer 9",
    "AppleiCloud||Apple iCloud", "IBMDb2||IBM Db2", "GraphicsMagick||GraphicsMagick",
    "OraclePeoplesoftEnterprisePeopletools||Oracle Peoplesoft Enterprise Peopletools",
    "MicrosoftInternetExplorer8||Microsoft Internet Explorer 8",
    "OracleEBusinessSuite||Oracle E-Business Suite", "OracleCoherence||Oracle Coherence",
    "MicrosoftInternetExplorer10||Microsoft Internet Explorer 10",
    "OracleWebLogicServer||Oracle WebLogic Server",
    "ApacheHTTPServer||Apache HTTP Server" ]

/-- JS `this.options.maxCVEs || 140558`. -/
def maxHitsToFetch (opts : Opts) : Nat :=
  match opts.maxCVEs with
  | some c => if 0 < c then c else 140558
  | none => 140558

/-- The shared map built by `loadCVEsComprehensive`: the unfiltered sweep
plus one sweep per technology filter, each merging its local map into the
shared map.  The cooperative interleaving is modelled by this sequential
schedule; capacity bounds are additionally proved schedule-independently
via `mergeSeq`. -/
def comprehensiveMap (env : Env) (opts : Opts) : JMap :=
  let m0 := (fetchCVEsWithFilters env opts [] [] (maxHitsToFetch opts)).1
  technologyFilters.foldl
    (fun m f => (fetchCVEsWithFilters env opts [f] m (maxHitsToFetch opts)).1) m0

/-- The record list of `loadCVEsComprehensive`: `Array.from(allCVEs.values())`. -/
def loadCVEsComprehensive (env : Env) (opts : Opts) : List CVERec :=
  (comprehensiveMap env opts).map (fun e => e.2)

/-- An arbitrary sequence of sweep merges into the shared collector map:
each element is one producer's local map, merged in schedule order. -/
def mergeSeq (opts : Opts) (locals : List JMap) (m0 : JMap) : JMap :=
  locals.foldl (fun m l => mergeLoop opts m l) m0

/-- The per-page hit loop of `loadCVEsStandard` (records are pushed to an
array, without deduplication; the always-truthy validation guard keeps every
transformed record). -/
def stdHits (detail : String → FetchOutcome) (dateParse : String → Option String)
    (maxC : Nat) : List Hit → List CVERec → List CVERec
  | [], acc => acc
  | h :: rest, acc =>
    if maxC ≤ acc.length then acc
    else
      match transformAlgoliaHitToCVE detail dateParse h with
      | some cve =>
        stdHits detail dateParse maxC rest
          (if jsTruthyObj (validateCVEData cve) then acc ++ [cve] else acc)
      | none => stdHits detail dateParse maxC rest acc

/-- The page loop of `loadCVEsStandard`; a failing page is skipped. -/
def stdPages (env : Env) (opts : Opts) (maxC : Nat) :
    Nat → Nat → List CVERec → List CVERec
  | 0, _, acc => acc
  | Nat.succ r, p, acc =>
    match env.request [] p opts.hitsPerPage with
    | none => stdPages env opts maxC r (p + 1) acc
    | some (_, hits) =>
      let acc' := stdHits env.detail env.dateParse maxC hits acc
      if maxC ≤ acc'.length then acc'
      else stdPages env opts maxC r (p + 1) acc'

/-- The source's `loadCVEsStandard`: the initial count request is not guarded, so its
failure propagates (`Except.error`). -/
def loadCVEsStandard (env : Env) (opts : Opts) : Except String (List CVERec) :=
  match env.request [] 0 1 with
  | none => .error "standard initial request failed"
  | some (nb, _) =>
    let totalPages := ceilDiv nb opts.hitsPerPage
    let maxC := match opts.maxCVEs with
      | some c => if 0 < c then c else nb
      | none => nb
    let pagesToFetch := min totalPages (ceilDiv maxC opts.hitsPerPage)
    .ok (stdPages env opts maxC pagesToFetch 0 [])

/-- The source's `loadAllCVEs`: comprehensive strategy (never throws - every sweep
catches its own errors) or the standard one. -/
def loadAllCVEs (env : Env) (opts : Opts) : Except String (List CVERec) :=
  if opts.useComprehensiveScraping then .ok (loadCVEsComprehensive env opts)
  else loadCVEsStandard env opts

/-- The source's `testApiConnectivity`: one unfiltered page-zero, page-size-one request;
throws on a transport error or an invalid response structure. -/
def testApiConnectivity (env : Env) : Except String Nat :=
  match env.request [] 0 1 with
  | some (nb, _) => .ok nb
  | none => .error "connectivity test failed"

/-- The per-record processing loop of `scrapeAllCVEs`: each record is pushed
(`processCVEDetails` returns it unchanged, validation being advisory), the
processed counter increments, and every `checkpointInterval` records a
checkpoint write is attempted; a throwing checkpoint write is caught by the
per-record handler, which pushes the record again. -/
def processLoop (fsFail : Nat → Bool) (interval : Nat) :
    List CVERec → Nat → List CVERec → List CVERec
  | [], _, acc => acc
  | cve :: rest, cnt, acc =>
    let acc1 := acc ++ [cve]
    let cnt1 := cnt + 1
    let acc2 := if cnt1 % interval = 0 && fsFail cnt1 then acc1 ++ [cve] else acc1
    processLoop fsFail interval rest cnt1 acc2

/-- The string the final sort's comparator hands to `localeCompare`.  The
comparator's `TypeError` on a record whose `id` is `undefined` is modelled
in `sortCVEData`, which throws before ever comparing such a record;
`idKey` is therefore only applied to records whose `id` is present (the
default is for totality only). -/
def idKey (r : CVERec) : String :=
  r.id.getD ""

/-- The comparator's order: ascending lexicographic on the `id` field. -/
def recIdLe (a b : CVERec) : Prop :=
  idKey a ≤ idKey b

instance : DecidableRel recIdLe := fun a b =>
  inferInstanceAs (Decidable (idKey a ≤ idKey b))

instance : IsTotal CVERec recIdLe :=
  ⟨fun a b => le_total (idKey a) (idKey b)⟩

instance : IsTrans CVERec recIdLe :=
  ⟨fun _ _ _ hab hbc => le_trans hab hbc⟩

/-- The result object of `scrapeAllCVEs`. -/
structure RunResult where
  scrapeDate : String
  totalCVEs : Nat
  cveData : List CVERec
deriving DecidableEq, Repr

/-- The final `processedCVEs.sort((a, b) => a.id.localeCompare(b.id))`.
`Array.prototype.sort` never calls the comparator on an array of length
≤ 1, so such arrays pass through untouched.  On longer arrays a record
whose `id` is `undefined` makes `a.id.localeCompare` throw a `TypeError`
when the engine passes it as the left operand; ECMA-262 leaves the
comparator call pattern implementation-defined, and this models the
typical engine behaviour in which such a record is eventually compared on
the left, so the sort throws whenever an id-less record is present in a
multi-element array.  With every id present the comparator is total and
the result is sorted in the comparator's ascending id order. -/
def sortCVEData (l : List CVERec) : Except String (List CVERec) :=
  if l.length ≤ 1 then .ok l
  else if l.all (fun r => r.id.isSome) then .ok (List.insertionSort recIdLe l)
  else .error "TypeError: a.id is undefined"

/-- The source's `scrapeAllCVEs`: connectivity test, load, then the processing loop; the
empty record set short-circuits to a `totalCVEs: 0` result; otherwise the
processed array is counted and sorted by `id`.  A `TypeError` thrown by
the sort comparator during construction of the result object is caught by
the outer handler and rethrown to the caller, a run-level error. -/
def scrapeAllCVEs (env : Env) (opts : Opts) (fsFail : Nat → Bool) : Except String RunResult :=
  match testApiConnectivity env with
  | .error e => .error e
  | .ok _ =>
    match loadAllCVEs env opts with
    | .error e => .error e
    | .ok cveList =>
      if cveList.length = 0 then .ok ⟨env.now, 0, []⟩
      else
        let interval := if opts.checkpointInterval = 0 then 100 else opts.checkpointInterval
        let processedCVEs := processLoop fsFail interval cveList 0 []
        match sortCVEData processedCVEs with
        | .error e => .error e
        | .ok sorted => .ok ⟨env.now, processedCVEs.length, sorted⟩

/-- One persisted checkpoint file (`{timestamp, processedCount,
currentIndex, data}`). -/
structure CheckpointFile where
  timestamp : String
  processedCount : Nat
  currentIndex : Nat
  data : List CVERec
deriving DecidableEq, Repr

/-- The checkpoint directory: files `checkpoint_<millis>.json`, modelled as
(millisecond key, parsed content) pairs; the key is the `Date.now()` value
embedded in the filename. -/
abbrev FsState : Type :=
  List (Nat × CheckpointFile)

/-- The helper `saveCheckpoint(processedCVEs, currentIndex)`: disabled checkpointing
writes nothing; otherwise a new `checkpoint_<Date.now()>.json` file is
created holding the ISO timestamp, `processedCVEs.length` as
`processedCount`, the index and the records. -/
def saveCheckpoint (enabled : Bool) (nowMs : Nat) (nowIso : String) (fs : FsState)
    (processedCVEs : List CVERec) (currentIndex : Nat) : FsState :=
  if enabled then
    fs ++ [(nowMs, ⟨nowIso, processedCVEs.length, currentIndex, processedCVEs⟩)]
  else fs

/-- The filename-time descending order used by `loadLatestCheckpoint`'s
`sort((a, b) => timeB - timeA)`. -/
def ckGe (a b : Nat × CheckpointFile) : Prop :=
  b.1 ≤ a.1

instance : DecidableRel ckGe := fun a b =>
  inferInstanceAs (Decidable (b.1 ≤ a.1))

instance : IsTotal (Nat × CheckpointFile) ckGe :=
  ⟨fun a b => le_total b.1 a.1⟩

instance : IsTrans (Nat × CheckpointFile) ckGe :=
  ⟨fun _ _ _ hab hbc => le_trans hbc hab⟩

/-- The helper `loadLatestCheckpoint`: list the checkpoint files, sort them by the
millisecond value in the filename, newest first, and parse the first; an
empty directory returns `null` as a normal outcome. -/
def loadLatestCheckpoint (fs : FsState) : Option CheckpointFile :=
  match List.insertionSort ckGe fs with
  | [] => none
  | e :: _ => some e.2

/-! ## Helper lemmas -/

theorem truthyS_jsOrS (a b : Option String) :
    truthyS (jsOrS a b) = (truthyS a || truthyS b) := by
  unfold jsOrS
  cases h : truthyS a <;> simp [h]

theorem truthyS_cveIdOf (hit : Hit) :
    truthyS (cveIdOf hit) = hasIdCandidate hit := by
  unfold cveIdOf hasIdCandidate
  rw [truthyS_jsOrS, truthyS_jsOrS, Bool.or_assoc]

theorem categorize_eq_rules (u t : String) :
    categorizeResourceType u t = firstMatchingCategory u t := by
  unfold categorizeResourceType firstMatchingCategory categoryRules
  split_ifs with h1 h2 h3 h4 h5 h6 h7 h8
  · simp_all [List.find?]
  · simp_all [List.find?]
  · simp_all [List.find?]
  · simp_all [List.find?]
  · simp_all [List.find?]
  · rw [Bool.or_eq_true] at h6
    rcases h6 with h | h <;> simp_all [List.find?]
  · rw [Bool.or_eq_true] at h7
    rcases h7 with h | h <;> simp_all [List.find?]
  · rw [Bool.or_eq_true] at h8
    rcases h8 with h | h <;> simp_all [List.find?]
  · simp_all [List.find?]

/-- Helper: when the date path does not throw, the transform returns the
record built from the hit, keyed by `cveIdOf` and carrying the extracted
references. -/
theorem transform_some_of_ok (detail : String → FetchOutcome)
    (dateParse : String → Option String) (hit : Hit) (pd : String)
    (hpd : jsPublishDate dateParse hit.publishedAt = some pd) :
    ∃ r, transformAlgoliaHitToCVE detail dateParse hit = some r ∧ r.id = cveIdOf hit ∧
      r.additionalResources.externalLinks =
        extractAdditionalResources detail (cveIdOf hit) ∧
      r.publishDate = pd := by
  simp only [transformAlgoliaHitToCVE, hpd]
  exact ⟨_, rfl, rfl, rfl, rfl⟩

/-- Helper: when a truthy `publishedAt` is unparseable, record construction
throws and the transform's catch returns null. -/
theorem transform_none_of_throws (detail : String → FetchOutcome)
    (dateParse : String → Option String) (hit : Hit)
    (hpd : jsPublishDate dateParse hit.publishedAt = none) :
    transformAlgoliaHitToCVE detail dateParse hit = none := by
  simp only [transformAlgoliaHitToCVE, hpd]

theorem hitLoop_singleton (detail : String → FetchOutcome)
    (dateParse : String → Option String) (opts : Opts)
    (sharedSize maxHits : Nat) (m : JMap) (hit : Hit) (r : CVERec)
    (hb : breakCond opts sharedSize maxHits m = false)
    (hr : transformAlgoliaHitToCVE detail dateParse hit = some r) :
    hitLoop detail dateParse opts sharedSize maxHits [hit] m = mapSet m r.id r := by
  unfold hitLoop
  simp [hb, hr, jsTruthyObj, hitLoop]

theorem hitLoop_singleton_none (detail : String → FetchOutcome)
    (dateParse : String → Option String) (opts : Opts)
    (sharedSize maxHits : Nat) (m : JMap) (hit : Hit)
    (hb : breakCond opts sharedSize maxHits m = false)
    (hr : transformAlgoliaHitToCVE detail dateParse hit = none) :
    hitLoop detail dateParse opts sharedSize maxHits [hit] m = m := by
  unfold hitLoop
  simp [hb, hr, hitLoop]

/-- Did the detail fetch fail to produce a resources section (thrown error,
or a document without the section)? -/
def fetchFailed : FetchOutcome → Bool
  | .err _ => true
  | .page none => true
  | .page (some _) => false

/-! ## Concrete inputs used by witnesses and counterexamples -/

/-- A detail-fetch environment in which every fetch throws (timeout). -/
def wDetailErr : String → FetchOutcome := fun _ => .err "timeout"

/-- A detail-fetch environment in which the fetched document has no
"Additional resources" section. -/
def wDetailNoSection : String → FetchOutcome := fun _ => .page none

/-- A detail-fetch environment returning one well-formed resource link. -/
def wDetailPage : String → FetchOutcome :=
  fun _ => .page (some [("http://nvd.nist.gov/vuln/detail/x", "NVD entry")])

/-- The date parser used by witnesses and counterexamples: the marker
string "not a date" is an Invalid Date (so `toISOString` throws); every
other input parses to its date part. -/
def wDateParse : String → Option String :=
  fun s => if s = "not a date" then none
    else some ⟨s.data.takeWhile (fun c => !(c = 'T'))⟩

/-- A raw hit with a non-empty identifier candidate and a parseable
`publishedAt`. -/
def wHitId : Hit :=
  ⟨some "CVE-2024-0001", none, none, some "HIGH", some 8, none, some [⟨"Linux"⟩],
    some ["a", "b", "c", "d"], some "2024-01-02T03:04:05Z", some "desc", some "http://s",
    some true, none, none, some false⟩

/-- A raw hit with no identifier candidate at all. -/
def wHitNoId : Hit :=
  ⟨none, none, none, none, none, none, none, none, none, none, none, none, none, none, none⟩

/-- A raw hit with a non-empty identifier but a truthy unparseable
`publishedAt`: building its record throws. -/
def wHitBadDate : Hit :=
  ⟨some "CVE-2024-0002", none, none, none, none, none, none, none,
    some "not a date", none, none, none, none, none, none⟩

/-- Options with no global cap. -/
def wOptsNoCap : Opts := ⟨none, 20, true, 100⟩

/-! ## C2 - the Record Transformer is *not* a pure function of the raw hit -/

/-- C2 counterexample: `transformAlgoliaHitToCVE` awaits the detail-page
fetch of `extractAdditionalResources`, so it performs I/O and two
invocations on the same raw hit (here `wHitId`) in two fetch environments
yield different Records - the claim "pure function of the raw hit, performs
no I/O" is false on the code. -/
theorem transform_not_pure_counterexample :
    transformAlgoliaHitToCVE wDetailErr wDateParse wHitId ≠
      transformAlgoliaHitToCVE wDetailPage wDateParse wHitId := by
  decide

/-- C2 (amended): the Transformer is deterministic in the raw hit *and* the
detail-fetch outcome: it depends on the fetch environment only through the
single `extractAdditionalResources` call, so two invocations on the same
raw hit whose fetches extract the same references yield the same Record
(or both return null, when record construction throws). -/
theorem transform_deterministic_given_fetch (d1 d2 : String → FetchOutcome)
    (dateParse : String → Option String) (hit : Hit)
    (h : extractAdditionalResources d1 (cveIdOf hit) =
      extractAdditionalResources d2 (cveIdOf hit)) :
    transformAlgoliaHitToCVE d1 dateParse hit = transformAlgoliaHitToCVE d2 dateParse hit := by
  simp only [transformAlgoliaHitToCVE, h]

/-- Witness for the amended C2: a thrown fetch and a fetch finding no
resources section extract the same (empty) reference list, and the two
transforms agree. -/
theorem transform_deterministic_given_fetch_witness :
    extractAdditionalResources wDetailErr (cveIdOf wHitId) =
      extractAdditionalResources wDetailNoSection (cveIdOf wHitId) ∧
    transformAlgoliaHitToCVE wDetailErr wDateParse wHitId =
      transformAlgoliaHitToCVE wDetailNoSection wDateParse wHitId :=
  ⟨by decide, transform_deterministic_given_fetch wDetailErr wDetailNoSection wDateParse wHitId
    (by decide)⟩

/-! ## C3 - transformer totality and the fate of identifier-less hits -/

/-- C3 counterexample: both halves of the claim fail on the code.  A hit
with a non-empty identifier candidate but a truthy unparseable
`publishedAt` makes `new Date(...).toISOString()` throw during record
construction, so the Transformer returns null despite the identifier.  A
hit with no identifier candidate gets a non-null Record whose `id` is the
absent value, and it is *not* dropped: the per-hit loop stores it in the
local map under the absent key (the insert guard's second conjunct is the
always-truthy Joi result object). -/
theorem transformer_totality_counterexample :
    hasIdCandidate wHitBadDate = true ∧
    transformAlgoliaHitToCVE wDetailErr wDateParse wHitBadDate = none ∧
    (transformAlgoliaHitToCVE wDetailErr wDateParse wHitNoId).isSome = true ∧
    mapHasKey (hitLoop wDetailErr wDateParse wOptsNoCap 0 5 [wHitNoId] []) none = true := by
  decide

/-- C3 (amended): whenever record construction does not throw -
`publishedAt` absent, empty, or parseable - the Transformer returns a
non-null Record whose `id` is `hit.externalId || hit.name || hit.id`, a
non-empty string exactly when the hit has a non-empty identifier
candidate, and the per-hit loop inserts that Record into the local map
under that value even when it is absent (an identifier-less hit is kept,
not dropped).  When a truthy `publishedAt` is unparseable, record
construction throws: the Transformer returns null regardless of the
identifier, and only then is the hit dropped (not inserted). -/
theorem transform_total_and_inserted (detail : String → FetchOutcome)
    (dateParse : String → Option String) (hit : Hit) :
    (pubDateThrows dateParse hit = false →
      ∃ r, transformAlgoliaHitToCVE detail dateParse hit = some r ∧ r.id = cveIdOf hit ∧
        (hasIdCandidate hit = true → ∃ s, cveIdOf hit = some s ∧ s ≠ "") ∧
        (hasIdCandidate hit = false → truthyS (cveIdOf hit) = false) ∧
        ∀ opts sharedSize maxHits (m : JMap),
          breakCond opts sharedSize maxHits m = false →
          hitLoop detail dateParse opts sharedSize maxHits [hit] m =
            mapSet m (cveIdOf hit) r) ∧
    (pubDateThrows dateParse hit = true →
      transformAlgoliaHitToCVE detail dateParse hit = none ∧
      ∀ opts sharedSize maxHits (m : JMap),
        breakCond opts sharedSize maxHits m = false →
        hitLoop detail dateParse opts sharedSize maxHits [hit] m = m) := by
  constructor
  · intro hok
    cases hpd : jsPublishDate dateParse hit.publishedAt with
    | none => rw [pubDateThrows, hpd] at hok; simp at hok
    | some pd =>
      obtain ⟨r, hr, hid, _, _⟩ := transform_some_of_ok detail dateParse hit pd hpd
      refine ⟨r, hr, hid, ?_, ?_, ?_⟩
      · intro hcand
        have ht : truthyS (cveIdOf hit) = true := by rw [truthyS_cveIdOf, hcand]
        cases hid2 : cveIdOf hit with
        | none => rw [hid2] at ht; simp [truthyS] at ht
        | some s =>
          rw [hid2] at ht
          refine ⟨s, rfl, ?_⟩
          simpa [truthyS] using ht
      · intro hcand
        rw [truthyS_cveIdOf, hcand]
      · intro opts sharedSize maxHits m hb
        rw [← hid]
        exact hitLoop_singleton detail dateParse opts sharedSize maxHits m hit r hb hr
  · intro hthrow
    cases hpd : jsPublishDate dateParse hit.publishedAt with
    | some pd => rw [pubDateThrows, hpd] at hthrow; simp at hthrow
    | none =>
      have hnone := transform_none_of_throws detail dateParse hit hpd
      refine ⟨hnone, ?_⟩
      intro opts sharedSize maxHits m hb
      exact hitLoop_singleton_none detail dateParse opts sharedSize maxHits m hit hb hnone

/-- Witness for the amended C3, exercising both branches: the
identifier-less hit is transformed and inserted under the absent key, and
the bad-date hit is dropped. -/
theorem transform_total_and_inserted_witness :
    pubDateThrows wDateParse wHitNoId = false ∧
    pubDateThrows wDateParse wHitBadDate = true ∧
    breakCond wOptsNoCap 0 5 [] = false ∧
    (∃ r, transformAlgoliaHitToCVE wDetailErr wDateParse wHitNoId = some r ∧
      r.id = cveIdOf wHitNoId ∧
      hitLoop wDetailErr wDateParse wOptsNoCap 0 5 [wHitNoId] [] =
        mapSet [] (cveIdOf wHitNoId) r) ∧
    (transformAlgoliaHitToCVE wDetailErr wDateParse wHitBadDate = none ∧
      hitLoop wDetailErr wDateParse wOptsNoCap 0 5 [wHitBadDate] [] = []) := by
  refine ⟨by decide, by decide, by decide, ?_, ?_⟩
  · obtain ⟨r, h1, h2, _, _, h5⟩ :=
      (transform_total_and_inserted wDetailErr wDateParse wHitNoId).1 (by decide)
    exact ⟨r, h1, h2, h5 wOptsNoCap 0 5 [] (by decide)⟩
  · obtain ⟨h1, h2⟩ :=
      (transform_total_and_inserted wDetailErr wDateParse wHitBadDate).2 (by decide)
    exact ⟨h1, h2 wOptsNoCap 0 5 [] (by decide)⟩

/-! ## C4 - enricher fault isolation -/

/-- Helper: a failing fetch environment always extracts the empty
reference list. -/
theorem extract_of_fetchFailed (detail : String → FetchOutcome) (cid : Option String)
    (hfail : ∀ s, fetchFailed (detail s) = true) :
    extractAdditionalResources detail cid = [] := by
  unfold extractAdditionalResources
  cases cid with
  | none => rfl
  | some c =>
    have h2 := hfail (strLower c)
    cases hdet : detail (strLower c) with
    | err e => simp [hdet]
    | page op =>
      cases op with
      | none => simp [hdet]
      | some rawLinks => rw [hdet] at h2; simp [fetchFailed] at h2

/-- C4: whenever the detail fetch or the parsing of the detail document
fails for any reason (thrown error/timeout, or a document whose resources
section is missing/malformed), the enrichment returns an empty references
list - the error never escapes, being caught inside
`extractAdditionalResources` - and it never prevents the owning Record
from being produced and inserted: whether the transform yields a Record is
independent of the fetch outcome (a record can fail to be produced only
for the orthogonal date-throw reason, equally under successful
enrichment), and whenever the owning Record exists it carries an empty
reference list and is still inserted by the per-hit loop. -/
theorem enrichment_failure_isolated (detail : String → FetchOutcome)
    (dateParse : String → Option String) (hit : Hit)
    (hfail : ∀ s, fetchFailed (detail s) = true) :
    extractAdditionalResources detail (cveIdOf hit) = [] ∧
    (∀ d2 : String → FetchOutcome,
      (transformAlgoliaHitToCVE detail dateParse hit).isSome =
        (transformAlgoliaHitToCVE d2 dateParse hit).isSome) ∧
    (pubDateThrows dateParse hit = false →
      ∃ r, transformAlgoliaHitToCVE detail dateParse hit = some r ∧
        r.additionalResources.externalLinks = [] ∧
        ∀ opts sharedSize maxHits (m : JMap),
          breakCond opts sharedSize maxHits m = false →
          hitLoop detail dateParse opts sharedSize maxHits [hit] m = mapSet m r.id r) := by
  have hext : extractAdditionalResources detail (cveIdOf hit) = [] :=
    extract_of_fetchFailed detail (cveIdOf hit) hfail
  refine ⟨hext, ?_, ?_⟩
  · intro d2
    cases hpd : jsPublishDate dateParse hit.publishedAt <;>
      simp [transformAlgoliaHitToCVE, hpd]
  · intro hok
    cases hpd : jsPublishDate dateParse hit.publishedAt with
    | none => rw [pubDateThrows, hpd] at hok; simp at hok
    | some pd =>
      obtain ⟨r, hr, _, hlinks, _⟩ := transform_some_of_ok detail dateParse hit pd hpd
      refine ⟨r, hr, ?_, ?_⟩
      · rw [hlinks, hext]
      · intro opts sharedSize maxHits m hb
        exact hitLoop_singleton detail dateParse opts sharedSize maxHits m hit r hb hr

/-- Witness for C4: a timeout-only fetch environment yields an empty
reference list, record production matches the successful-fetch outcome,
and the Record is still inserted. -/
theorem enrichment_failure_isolated_witness :
    (∀ s, fetchFailed (wDetailErr s) = true) ∧
    pubDateThrows wDateParse wHitId = false ∧
    extractAdditionalResources wDetailErr (cveIdOf wHitId) = [] ∧
    ((transformAlgoliaHitToCVE wDetailErr wDateParse wHitId).isSome =
      (transformAlgoliaHitToCVE wDetailPage wDateParse wHitId).isSome) ∧
    ∃ r, transformAlgoliaHitToCVE wDetailErr wDateParse wHitId = some r ∧
      r.additionalResources.externalLinks = [] ∧
      hitLoop wDetailErr wDateParse wOptsNoCap 0 5 [wHitId] [] = mapSet [] r.id r := by
  refine ⟨fun s => rfl, by decide, ?_⟩
  obtain ⟨h1, h2, h3⟩ :=
    enrichment_failure_isolated wDetailErr wDateParse wHitId (fun s => rfl)
  obtain ⟨r, hr, hl, hins⟩ := h3 (by decide)
  exact ⟨h1, h2 wDetailPage, r, hr, hl, hins wOptsNoCap 0 5 [] (by decide)⟩

/-! ## C8 - every produced reference has an absolute URL and the rule-list
category -/

/-- C8: every reference produced by the Detail Enricher has a URL starting
with `http` (a pair whose trimmed URL is not absolute, or whose URL or
title is empty, is discarded by the filter), and its category is exactly
the one assigned by the fixed ordered substring rule list
(`categoryRules`: NVD, GitHub, VulDB, MITRE, Exploit-DB, Security Advisory,
Patch/Fix, Proof of Concept) with `"Other"` as the default when no rule
matches. -/
theorem extract_absolute_and_rule_categorized (detail : String → FetchOutcome)
    (cveId : Option String) (r : ResourceLink)
    (hr : r ∈ extractAdditionalResources detail cveId) :
    strStartsWith r.url "http" = true ∧ r.type = firstMatchingCategory r.url r.title := by
  unfold extractAdditionalResources at hr
  split at hr
  · simp at hr
  · split at hr
    · simp at hr
    · simp at hr
    · simp only [List.mem_filterMap] at hr
      obtain ⟨p, _, hp⟩ := hr
      by_cases hc :
          (!(strTrim p.1 = "") && !(strTrim p.2 = "") && strStartsWith (strTrim p.1) "http") = true
      · rw [if_pos hc] at hp
        cases hp
        have hurl : strStartsWith (strTrim p.1) "http" = true := by
          have h3 := hc
          simp only [Bool.and_eq_true] at h3
          exact h3.2
        exact ⟨hurl, categorize_eq_rules _ _⟩
      · rw [if_neg hc] at hp
        exact absurd hp (by simp)

/-- Witness for C8: a concrete extraction producing one NVD-categorised
link with an absolute URL. -/
theorem extract_absolute_and_rule_categorized_witness :
    (⟨"NVD entry", "http://nvd.nist.gov/vuln/detail/x", "NVD"⟩ : ResourceLink) ∈
      extractAdditionalResources wDetailPage (some "CVE-2024-0001") ∧
    (strStartsWith "http://nvd.nist.gov/vuln/detail/x" "http" = true ∧
      "NVD" = firstMatchingCategory "http://nvd.nist.gov/vuln/detail/x" "NVD entry") := by
  refine ⟨by decide, ?_⟩
  have h := extract_absolute_and_rule_categorized wDetailPage (some "CVE-2024-0001")
    ⟨"NVD entry", "http://nvd.nist.gov/vuln/detail/x", "NVD"⟩ (by decide)
  exact h

/-! ## Map invariants: dedup (C1) and capacity (C7) -/

/-- The collector invariant: keys are pairwise distinct and every entry is
stored under its record's `id`. -/
def GoodMap (m : JMap) : Prop :=
  (m.map Prod.fst).Nodup ∧ ∀ e ∈ m, e.2.id = e.1

theorem goodMap_nil : GoodMap [] := by
  constructor
  · exact List.nodup_nil
  · intro e he
    exact absurd he (List.not_mem_nil e)

theorem mapHasKey_false_not_mem (m : JMap) (k : Option String)
    (h : mapHasKey m k = false) : k ∉ m.map Prod.fst := by
  intro hk
  obtain ⟨e, he, hek⟩ := List.mem_map.mp hk
  have : m.any (fun e => e.1 = k) = true := List.any_eq_true.mpr ⟨e, he, by simp [hek]⟩
  rw [mapHasKey] at h
  rw [h] at this
  exact Bool.false_ne_true this

theorem mapSet_good (m : JMap) (k : Option String) (v : CVERec)
    (h : GoodMap m) (hk : v.id = k) : GoodMap (mapSet m k v) := by
  unfold mapSet
  by_cases hhas : mapHasKey m k = true
  · rw [if_pos hhas]
    constructor
    · have : (m.map (fun e => if e.1 = k then (k, v) else e)).map Prod.fst = m.map Prod.fst := by
        rw [List.map_map]
        apply List.map_congr_left
        intro e _
        by_cases he : e.1 = k
        · simp [he]
        · simp [he]
      rw [this]
      exact h.1
    · intro e he
      obtain ⟨a, ha, hae⟩ := List.mem_map.mp he
      by_cases hak : a.1 = k
      · rw [if_pos hak] at hae
        rw [← hae]
        exact hk
      · rw [if_neg hak] at hae
        rw [← hae]
        exact h.2 a ha
  · rw [if_neg hhas]
    constructor
    · rw [List.map_append]
      apply List.Nodup.append h.1 (List.nodup_singleton k)
      intro a ha hb
      simp only [List.map_cons, List.map_nil, List.mem_singleton] at hb
      rw [hb] at ha
      exact mapHasKey_false_not_mem m k (Bool.eq_false_iff.mpr hhas) ha
    · intro e he
      rcases List.mem_append.mp he with hm | hs
      · exact h.2 e hm
      · simp only [List.mem_singleton] at hs
        rw [hs]
        exact hk

/-- Last-writer-wins: after `Map.set(k, v)` the value stored under `k` is
`v`, whatever was there before. -/
theorem mapLookup_mapSet (m : JMap) (k : Option String) (v : CVERec) :
    mapLookup (mapSet m k v) k = some v := by
  induction m with
  | nil =>
    rw [mapSet, if_neg (by simp [mapHasKey])]
    rw [mapLookup, List.nil_append, List.find?_cons_of_pos _ (by simp)]
    rfl
  | cons e rest ih =>
    by_cases he : e.1 = k
    · have hhas : mapHasKey (e :: rest) k = true := by
        unfold mapHasKey
        rw [List.any_cons]
        simp [he]
      rw [mapSet, if_pos hhas]
      simp only [List.map_cons, if_pos he]
      rw [mapLookup, List.find?_cons_of_pos _ (by simp)]
      rfl
    · have hpe1 : ¬((fun x : Option String × CVERec => decide (x.1 = k)) e = true) := by
        simp [he]
      by_cases hrest : mapHasKey rest k = true
      · have hhas : mapHasKey (e :: rest) k = true := by
          unfold mapHasKey at hrest ⊢
          rw [List.any_cons, hrest, Bool.or_true]
        rw [mapSet, if_pos hhas]
        simp only [List.map_cons, if_neg he]
        rw [mapLookup, @List.find?_cons_of_neg (Option String × CVERec)
          (fun x => decide (x.1 = k)) e _ (by simp [he])]
        have h2 := ih
        rw [mapSet, if_pos hrest, mapLookup] at h2
        exact h2
      · have hr : mapHasKey rest k = false := Bool.eq_false_iff.mpr hrest
        have hhas : mapHasKey (e :: rest) k = false := by
          unfold mapHasKey at hr ⊢
          rw [List.any_cons, show (decide (e.1 = k)) = false from by simp [he],
            Bool.false_or]
          exact hr
        rw [mapSet, if_neg (by rw [hhas]; exact Bool.false_ne_true)]
        rw [List.cons_append, mapLookup, @List.find?_cons_of_neg (Option String × CVERec)
          (fun x => decide (x.1 = k)) e _ (by simp [he])]
        have h2 := ih
        rw [mapSet, if_neg hrest, mapLookup] at h2
        exact h2

theorem hitLoop_good (detail : String → FetchOutcome)
    (dateParse : String → Option String) (opts : Opts)
    (sharedSize maxHits : Nat) (hits : List Hit) (m : JMap) (h : GoodMap m) :
    GoodMap (hitLoop detail dateParse opts sharedSize maxHits hits m) := by
  induction hits generalizing m with
  | nil => exact h
  | cons hit rest ih =>
    rw [hitLoop]
    by_cases hb : breakCond opts sharedSize maxHits m = true
    · rw [if_pos hb]
      exact h
    · rw [if_neg hb]
      cases hr : transformAlgoliaHitToCVE detail dateParse hit with
      | none => exact ih m h
      | some r =>
        simp only [jsTruthyObj, if_pos]
        exact ih (mapSet m r.id r) (mapSet_good m r.id r h rfl)

theorem mergeLoop_good (opts : Opts) (shared : JMap) (l : List (Option String × CVERec))
    (h : GoodMap shared) (hl : ∀ e ∈ l, e.2.id = e.1) :
    GoodMap (mergeLoop opts shared l) := by
  induction l generalizing shared with
  | nil => exact h
  | cons e rest ih =>
    rw [mergeLoop]
    by_cases hcap : sharedCapHit opts shared.length = true
    · rw [if_pos hcap]
      exact h
    · rw [if_neg hcap]
      exact ih (mapSet shared e.1 e.2)
        (mapSet_good shared e.1 e.2 h (hl e (List.mem_cons_self e rest)))
        (fun a ha => hl a (List.mem_cons_of_mem e ha))

theorem pagesGo_good (env : Env) (opts : Opts) (filters : List String)
    (sharedSize maxHits : Nat) (r p : Nat) (m : JMap) (v : List Nat) (h : GoodMap m) :
    GoodMap (pagesGo env opts filters sharedSize maxHits r p m v).1 := by
  induction r generalizing p m v with
  | zero => exact h
  | succ n ih =>
    rw [pagesGo]
    cases env.request filters p opts.hitsPerPage with
    | none => exact ih (p + 1) m (v ++ [p]) h
    | some pr =>
      simp only
      by_cases hb : breakCond opts sharedSize maxHits
          (hitLoop env.detail env.dateParse opts sharedSize maxHits pr.2 m) = true
      · rw [if_pos hb]
        exact hitLoop_good env.detail env.dateParse opts sharedSize maxHits pr.2 m h
      · rw [if_neg hb]
        exact ih (p + 1) _ (v ++ [p])
          (hitLoop_good env.detail env.dateParse opts sharedSize maxHits pr.2 m h)

theorem fetchCVEsWithFilters_good (env : Env) (opts : Opts) (filters : List String)
    (cveMap : JMap) (maxHits : Nat) (h : GoodMap cveMap) :
    GoodMap (fetchCVEsWithFilters env opts filters cveMap maxHits).1 := by
  rw [fetchCVEsWithFilters]
  cases env.request filters 0 1 with
  | none => exact h
  | some pr =>
    simp only
    by_cases h0 : min pr.1 maxHits = 0
    · rw [if_pos h0]
      exact h
    · rw [if_neg h0]
      apply mergeLoop_good opts cveMap _ h
      have hg := pagesGo_good env opts filters cveMap.length maxHits
        (ceilDiv (min pr.1 maxHits) opts.hitsPerPage) 0 [] [] goodMap_nil
      exact hg.2

theorem comprehensiveMap_good (env : Env) (opts : Opts) :
    GoodMap (comprehensiveMap env opts) := by
  rw [comprehensiveMap]
  have base : GoodMap (fetchCVEsWithFilters env opts [] [] (maxHitsToFetch opts)).1 :=
    fetchCVEsWithFilters_good env opts [] [] (maxHitsToFetch opts) goodMap_nil
  generalize (fetchCVEsWithFilters env opts [] [] (maxHitsToFetch opts)).1 = m0 at base
  induction technologyFilters generalizing m0 with
  | nil => exact base
  | cons f rest ih =>
    rw [List.foldl_cons]
    exact ih _ (fetchCVEsWithFilters_good env opts [f] m0 (maxHitsToFetch opts) base)

/-- C1: in a comprehensive run the final record map holds at most one
Record per identifier (its keys are pairwise distinct and every Record is
stored under its own `id`), and every insertion path - the local per-sweep
map writes and the merge into the shared map both go through `Map.set` -
is last-writer-wins: after inserting two Records with the same `id`, only
the most recently inserted payload remains. -/
theorem comprehensive_dedup_and_last_writer_wins (env : Env) (opts : Opts) :
    ((comprehensiveMap env opts).map Prod.fst).Nodup ∧
    (∀ e ∈ comprehensiveMap env opts, e.2.id = e.1) ∧
    ∀ (m : JMap) (k : Option String) (v : CVERec), mapLookup (mapSet m k v) k = some v :=
  ⟨(comprehensiveMap_good env opts).1, (comprehensiveMap_good env opts).2,
    fun m k v => mapLookup_mapSet m k v⟩

theorem mapSet_length_le (m : JMap) (k : Option String) (v : CVERec) :
    (mapSet m k v).length ≤ m.length + 1 := by
  rw [mapSet]
  by_cases hhas : mapHasKey m k = true
  · rw [if_pos hhas, List.length_map]
    exact Nat.le_succ _
  · rw [if_neg hhas, List.length_append]
    exact Nat.le_refl _

theorem sharedCapHit_false_lt (opts : Opts) (C size : Nat)
    (hC : opts.maxCVEs = some C) (hpos : 0 < C)
    (h : sharedCapHit opts size = false) : size < C := by
  rw [sharedCapHit, hC] at h
  have h2 : (decide (C ≤ size) && decide (0 < C)) = false := h
  by_contra hge
  push_neg at hge
  rw [decide_eq_true hge, decide_eq_true hpos] at h2
  simp at h2

theorem mergeLoop_length_le (opts : Opts) (C : Nat) (hC : opts.maxCVEs = some C)
    (hpos : 0 < C) (shared : JMap) (l : List (Option String × CVERec))
    (h : shared.length ≤ C) : (mergeLoop opts shared l).length ≤ C := by
  induction l generalizing shared with
  | nil => exact h
  | cons e rest ih =>
    rw [mergeLoop]
    by_cases hcap : sharedCapHit opts shared.length = true
    · rw [if_pos hcap]
      exact h
    · rw [if_neg hcap]
      apply ih
      calc (mapSet shared e.1 e.2).length ≤ shared.length + 1 :=
            mapSet_length_le shared e.1 e.2
        _ ≤ C := sharedCapHit_false_lt opts C shared.length hC hpos
            (Bool.eq_false_iff.mpr hcap)

theorem mergeSeq_length_le (opts : Opts) (C : Nat) (hC : opts.maxCVEs = some C)
    (hpos : 0 < C) (locals : List JMap) (m0 : JMap) (h : m0.length ≤ C) :
    (mergeSeq opts locals m0).length ≤ C := by
  induction locals generalizing m0 with
  | nil => exact h
  | cons l rest ih =>
    rw [mergeSeq, List.foldl_cons]
    exact ih (mergeLoop opts m0 l) (mergeLoop_length_le opts C hC hpos m0 l h)

theorem fetchCVEsWithFilters_length_le (env : Env) (opts : Opts) (C : Nat)
    (hC : opts.maxCVEs = some C) (hpos : 0 < C) (filters : List String)
    (cveMap : JMap) (maxHits : Nat) (h : cveMap.length ≤ C) :
    (fetchCVEsWithFilters env opts filters cveMap maxHits).1.length ≤ C := by
  rw [fetchCVEsWithFilters]
  cases env.request filters 0 1 with
  | none => exact h
  | some pr =>
    simp only
    by_cases h0 : min pr.1 maxHits = 0
    · rw [if_pos h0]
      exact h
    · rw [if_neg h0]
      exact mergeLoop_length_le opts C hC hpos cveMap _ h

theorem comprehensiveMap_length_le (env : Env) (opts : Opts) (C : Nat)
    (hC : opts.maxCVEs = some C) (hpos : 0 < C) :
    (comprehensiveMap env opts).length ≤ C := by
  rw [comprehensiveMap]
  have base : (fetchCVEsWithFilters env opts [] [] (maxHitsToFetch opts)).1.length ≤ C :=
    fetchCVEsWithFilters_length_le env opts C hC hpos [] [] (maxHitsToFetch opts)
      (Nat.zero_le C)
  generalize (fetchCVEsWithFilters env opts [] [] (maxHitsToFetch opts)).1 = m0 at base
  induction technologyFilters generalizing m0 with
  | nil => exact base
  | cons f rest ih =>
    rw [List.foldl_cons]
    exact ih _ (fetchCVEsWithFilters_length_le env opts C hC hpos [f] m0
      (maxHitsToFetch opts) base)

/-- C7: with a configured global cap `C > 0` and `P` producers, the shared
collector map after all merges holds at most `C + P` records - in fact the
code checks the cap before *every* insert of the (synchronous, hence
atomic) merge loop, so the bound `≤ C` holds for any merge schedule, and a
merge step inserts nothing once the shared map has reached the cap.  The
comprehensive run (`P = technologyFilters.length + 1` producers) satisfies
the claimed bound. -/
theorem cap_respected_within_tolerance (opts : Opts) (C : Nat)
    (hC : opts.maxCVEs = some C) (hpos : 0 < C) :
    (∀ (locals : List JMap), (mergeSeq opts locals []).length ≤ C + locals.length) ∧
    (∀ (m : JMap) (l : List (Option String × CVERec)),
      sharedCapHit opts m.length = true → mergeLoop opts m l = m) ∧
    ∀ env, (loadCVEsComprehensive env opts).length ≤
      C + (technologyFilters.length + 1) := by
  refine ⟨?_, ?_, ?_⟩
  · intro locals
    calc (mergeSeq opts locals []).length ≤ C :=
          mergeSeq_length_le opts C hC hpos locals [] (Nat.zero_le C)
      _ ≤ C + locals.length := Nat.le_add_right C locals.length
  · intro m l hcap
    cases l with
    | nil => rfl
    | cons e rest =>
      rw [mergeLoop, if_pos hcap]
  · intro env
    rw [loadCVEsComprehensive, List.length_map]
    calc (comprehensiveMap env opts).length ≤ C :=
          comprehensiveMap_length_le env opts C hC hpos
      _ ≤ C + (technologyFilters.length + 1) := Nat.le_add_right _ _

/-- A record value used to build concrete maps in witnesses. -/
def wRec : CVERec :=
  ⟨some "CVE-A", "N/A", none, "N/A", "N/A", "N/A", "", "", false, false, false, false,
    ⟨"", [], [], []⟩⟩

/-- Options with a cap of 2. -/
def wOptsCap : Opts := ⟨some 2, 20, true, 100⟩

/-- A shared map already at the cap of `wOptsCap`. -/
def wShared : JMap := [(some "A", wRec), (some "B", wRec)]

/-- A one-entry local map. -/
def wLocal : JMap := [(some "C", wRec)]

/-- An environment in which every page request throws. -/
def wEnvDown : Env := ⟨fun _ _ _ => none, fun _ => .err "down", wDateParse, "t0"⟩

/-- Witness for C7: cap 2, one producer's merge bounded, a merge into a
full map inserts nothing, and the comprehensive run respects the bound. -/
theorem cap_respected_within_tolerance_witness :
    wOptsCap.maxCVEs = some 2 ∧ 0 < 2 ∧
    (mergeSeq wOptsCap [wLocal] []).length ≤ 2 + [wLocal].length ∧
    sharedCapHit wOptsCap wShared.length = true ∧
    mergeLoop wOptsCap wShared wLocal = wShared ∧
    (loadCVEsComprehensive wEnvDown wOptsCap).length ≤
      2 + (technologyFilters.length + 1) := by
  obtain ⟨h1, h2, h3⟩ := cap_respected_within_tolerance wOptsCap 2 rfl (by decide)
  exact ⟨rfl, by decide, h1 [wLocal], by decide, h2 wShared wLocal (by decide), h3 wEnvDown⟩

/-! ## C6 - page iteration of a sweep -/

/-- The number of hits the environment returns for one page request (0 when
the request throws). -/
def pageHitsLen (env : Env) (opts : Opts) (filters : List String) (p : Nat) : Nat :=
  match env.request filters p opts.hitsPerPage with
  | none => 0
  | some pr => pr.2.length

theorem append_singleton_range' (v : List Nat) (p k : Nat) :
    v ++ [p] ++ List.range' (p + 1) k = v ++ List.range' p (k + 1) := by
  rw [List.append_assoc, List.range'_succ]
  rfl

/-- The pages a sweep visits always form a contiguous prefix of the planned
range, in strictly increasing order. -/
theorem pagesGo_visited_front (env : Env) (opts : Opts) (filters : List String)
    (sharedSize maxHits : Nat) :
    ∀ (r p : Nat) (m : JMap) (v : List Nat),
      ∃ k, k ≤ r ∧
        (pagesGo env opts filters sharedSize maxHits r p m v).2 = v ++ List.range' p k := by
  intro r
  induction r with
  | zero =>
    intro p m v
    exact ⟨0, Nat.le_refl 0, by simp [pagesGo]⟩
  | succ n ih =>
    intro p m v
    rw [pagesGo]
    cases env.request filters p opts.hitsPerPage with
    | none =>
      obtain ⟨k, hk, he⟩ := ih (p + 1) m (v ++ [p])
      exact ⟨k + 1, Nat.succ_le_succ hk, by rw [he, append_singleton_range']⟩
    | some pr =>
      simp only
      by_cases hb : breakCond opts sharedSize maxHits
          (hitLoop env.detail env.dateParse opts sharedSize maxHits pr.2 m) = true
      · refine ⟨1, Nat.succ_le_succ (Nat.zero_le n), ?_⟩
        rw [if_pos hb]
        simp [List.range'_succ]
      · rw [if_neg hb]
        obtain ⟨k, hk, he⟩ := ih (p + 1) _ (v ++ [p])
        exact ⟨k + 1, Nat.succ_le_succ hk, by rw [he, append_singleton_range']⟩

theorem hitLoop_length_le (detail : String → FetchOutcome)
    (dateParse : String → Option String) (opts : Opts)
    (sharedSize maxHits : Nat) (hits : List Hit) (m : JMap) :
    (hitLoop detail dateParse opts sharedSize maxHits hits m).length ≤
      m.length + hits.length := by
  induction hits generalizing m with
  | nil => exact Nat.le_add_right _ 0
  | cons hit rest ih =>
    rw [hitLoop]
    by_cases hb : breakCond opts sharedSize maxHits m = true
    · rw [if_pos hb]
      exact Nat.le_add_right _ _
    · rw [if_neg hb]
      cases hr : transformAlgoliaHitToCVE detail dateParse hit with
      | none =>
        calc (hitLoop detail dateParse opts sharedSize maxHits rest m).length
            ≤ m.length + rest.length := ih m
          _ ≤ m.length + (rest.length + 1) := by omega
      | some r =>
        simp only [jsTruthyObj, if_pos]
        calc (hitLoop detail dateParse opts sharedSize maxHits rest (mapSet m r.id r)).length
            ≤ (mapSet m r.id r).length + rest.length := ih (mapSet m r.id r)
          _ ≤ (m.length + 1) + rest.length :=
              Nat.add_le_add_right (mapSet_length_le m r.id r) rest.length
          _ = m.length + (rest.length + 1) := by omega

/-- If the shared-map cap is not hit at sweep start and the total number of
hits the planned pages can return stays below `maxHits`, no break fires:
the sweep visits every planned page, and the local map stays small. -/
theorem pagesGo_no_break (env : Env) (opts : Opts) (filters : List String)
    (sharedSize maxHits : Nat) (hcap : sharedCapHit opts sharedSize = false) :
    ∀ (r p : Nat) (m : JMap) (v : List Nat),
      m.length + ((List.range' p r).map (pageHitsLen env opts filters)).sum < maxHits →
      (pagesGo env opts filters sharedSize maxHits r p m v).2 = v ++ List.range' p r ∧
      (pagesGo env opts filters sharedSize maxHits r p m v).1.length ≤
        m.length + ((List.range' p r).map (pageHitsLen env opts filters)).sum := by
  intro r
  induction r with
  | zero =>
    intro p m v _
    refine ⟨by simp [pagesGo], ?_⟩
    simp [pagesGo]
  | succ n ih =>
    intro p m v hsum
    rw [List.range'_succ, List.map_cons, List.sum_cons] at hsum
    rw [pagesGo]
    cases hreq : env.request filters p opts.hitsPerPage with
    | none =>
      have hlen : pageHitsLen env opts filters p = 0 := by
        rw [pageHitsLen, hreq]
      rw [hlen, Nat.zero_add] at hsum
      obtain ⟨hvis, hloc⟩ := ih (p + 1) m (v ++ [p]) hsum
      refine ⟨by rw [hvis, append_singleton_range'], ?_⟩
      rw [List.range'_succ, List.map_cons, List.sum_cons, hlen, Nat.zero_add]
      exact hloc
    | some pr =>
      simp only
      have hlen : pageHitsLen env opts filters p = pr.2.length := by
        rw [pageHitsLen, hreq]
      have hml : (hitLoop env.detail env.dateParse opts sharedSize maxHits pr.2 m).length ≤
          m.length + pageHitsLen env opts filters p := by
        rw [hlen]
        exact hitLoop_length_le env.detail env.dateParse opts sharedSize maxHits pr.2 m
      have hlt : (hitLoop env.detail env.dateParse opts sharedSize maxHits pr.2 m).length < maxHits := by
        calc (hitLoop env.detail env.dateParse opts sharedSize maxHits pr.2 m).length
            ≤ m.length + pageHitsLen env opts filters p := hml
          _ ≤ m.length + (pageHitsLen env opts filters p +
              ((List.range' (p + 1) n).map (pageHitsLen env opts filters)).sum) := by omega
          _ < maxHits := hsum
      have hb : breakCond opts sharedSize maxHits
          (hitLoop env.detail env.dateParse opts sharedSize maxHits pr.2 m) = false := by
        rw [breakCond, hcap, Bool.false_or]
        rw [decide_eq_false (Nat.not_le_of_lt hlt)]
      rw [if_neg (by rw [hb]; exact Bool.false_ne_true)]
      have hsum2 : (hitLoop env.detail env.dateParse opts sharedSize maxHits pr.2 m).length +
          ((List.range' (p + 1) n).map (pageHitsLen env opts filters)).sum < maxHits := by
        omega
      obtain ⟨hvis, hloc⟩ := ih (p + 1) _ (v ++ [p]) hsum2
      refine ⟨by rw [hvis, append_singleton_range'], ?_⟩
      rw [List.range'_succ, List.map_cons, List.sum_cons]
      omega

/-- C6 counterexample environment: the probe reports 3 total hits and every
page returns one hit. -/
def c6Env : Env := ⟨fun _ _ _ => some (3, [wHitId]), fun _ => .err "x", wDateParse, "t0"⟩

/-- C6 counterexample options: global cap 1, one hit per page. -/
def c6Opts : Opts := ⟨some 1, 1, true, 100⟩

/-- C6 counterexample: a sweep that starts while the shared map already
holds `maxCVEs` records computes `pagesNeeded = ceil(min(3, 10) / 1) = 3`
but fetches only page 0 - the cap break fires after the first page, so the
claim "fetches exactly pagesNeeded pages" is false on the code. -/
theorem sweep_exact_pages_counterexample :
    c6Env.request [] 0 1 = some (3, [wHitId]) ∧
    ceilDiv (min 3 10) c6Opts.hitsPerPage = 3 ∧
    sharedCapHit c6Opts wLocal.length = true ∧
    (fetchCVEsWithFilters c6Env c6Opts [] wLocal 10).2 = [0] := by
  exact ⟨rfl, by decide, by decide, by decide⟩

/-- C6 (amended): after the page-zero probe returns `totalHits = nb`, the
sweep visits a contiguous, strictly increasing prefix `0..k-1` of the
planned range with `k ≤ pagesNeeded = ceil(min(totalHits, maxHits) /
hitsPerPage)`; it fetches zero pages when `totalHits` is 0; and it fetches
*exactly* `pagesNeeded` pages whenever neither cap break can fire - the
shared-map cap is not already reached at sweep start and the planned pages
return fewer than `maxHits` hits in total.  (The original claim's
"exactly" fails when a cap break cuts the sweep short, as the
counterexample shows.) -/
theorem sweep_page_iteration (env : Env) (opts : Opts) (filters : List String)
    (cveMap : JMap) (maxHits nb : Nat) (h0 : List Hit)
    (hreq : env.request filters 0 1 = some (nb, h0)) :
    (min nb maxHits = 0 →
      (fetchCVEsWithFilters env opts filters cveMap maxHits).2 = []) ∧
    (∃ k, k ≤ ceilDiv (min nb maxHits) opts.hitsPerPage ∧
      (fetchCVEsWithFilters env opts filters cveMap maxHits).2 = List.range k) ∧
    (sharedCapHit opts cveMap.length = false →
      ((List.range (ceilDiv (min nb maxHits) opts.hitsPerPage)).map
        (pageHitsLen env opts filters)).sum < maxHits →
      (fetchCVEsWithFilters env opts filters cveMap maxHits).2 =
        List.range (ceilDiv (min nb maxHits) opts.hitsPerPage)) := by
  refine ⟨?_, ?_, ?_⟩
  · intro h0hits
    rw [fetchCVEsWithFilters, hreq]
    simp only
    rw [if_pos h0hits]
  · by_cases h0hits : min nb maxHits = 0
    · refine ⟨0, Nat.zero_le _, ?_⟩
      rw [fetchCVEsWithFilters, hreq]
      simp only
      rw [if_pos h0hits]
      rfl
    · rw [fetchCVEsWithFilters, hreq]
      simp only
      rw [if_neg h0hits]
      obtain ⟨k, hk, he⟩ := pagesGo_visited_front env opts filters cveMap.length maxHits
        (ceilDiv (min nb maxHits) opts.hitsPerPage) 0 [] []
      refine ⟨k, hk, ?_⟩
      simp only
      rw [he, List.nil_append, List.range_eq_range']
  · intro hcap hsum
    by_cases h0hits : min nb maxHits = 0
    · rw [fetchCVEsWithFilters, hreq]
      simp only
      rw [if_pos h0hits]
      have : ceilDiv (min nb maxHits) opts.hitsPerPage = 0 := by
        rw [h0hits, ceilDiv]
        cases Nat.eq_zero_or_pos opts.hitsPerPage with
        | inl hz => rw [hz]
        | inr hp => exact Nat.div_eq_of_lt (by omega)
      rw [this]
      rfl
    · rw [fetchCVEsWithFilters, hreq]
      simp only
      rw [if_neg h0hits]
      rw [List.range_eq_range'] at hsum
      obtain ⟨hvis, _⟩ := pagesGo_no_break env opts filters cveMap.length maxHits hcap
        (ceilDiv (min nb maxHits) opts.hitsPerPage) 0 [] []
        (by rw [List.length_nil, Nat.zero_add]; exact hsum)
      simp only
      rw [hvis, List.nil_append, List.range_eq_range']

/-- C6 witness environment: probe reports 3 hits, one hit per page, no
caps binding. -/
def c6EnvOk : Env :=
  ⟨fun _ _ _ => some (3, [wHitId]), fun _ => .err "x", wDateParse, "t0"⟩

/-- C6 witness options: no cap, one hit per page. -/
def c6OptsOk : Opts := ⟨none, 1, true, 100⟩

/-- Witness for the amended C6: with no cap binding, the sweep fetches
exactly `ceil(min(3, 10) / 1) = 3` pages, in order `[0, 1, 2]`. -/
theorem sweep_page_iteration_witness :
    sharedCapHit c6OptsOk ([] : JMap).length = false ∧
    ((List.range (ceilDiv (min 3 10) c6OptsOk.hitsPerPage)).map
      (pageHitsLen c6EnvOk c6OptsOk [])).sum < 10 ∧
    (fetchCVEsWithFilters c6EnvOk c6OptsOk [] [] 10).2 =
      List.range (ceilDiv (min 3 10) c6OptsOk.hitsPerPage) := by
  obtain ⟨h1, h2, h3⟩ := sweep_page_iteration c6EnvOk c6OptsOk [] [] 10 3 [wHitId] rfl
  exact ⟨by decide, by decide, h3 (by decide) (by decide)⟩

/-! ## C5 and C10 - run-level behaviour of `scrapeAllCVEs` -/

/-- Every record handed to the processing loop ends up in its output (the
loop never drops a record; a checkpoint failure can only duplicate one). -/
theorem processLoop_mem (fsFail : Nat → Bool) (interval : Nat) :
    ∀ (l : List CVERec) (cnt : Nat) (acc : List CVERec) (c : CVERec),
      (c ∈ acc ∨ c ∈ l) → c ∈ processLoop fsFail interval l cnt acc := by
  intro l
  induction l with
  | nil =>
    intro cnt acc c h
    rw [processLoop]
    rcases h with h | h
    · exact h
    · exact absurd h (List.not_mem_nil c)
  | cons cve rest ih =>
    intro cnt acc c h
    rw [processLoop]
    apply ih
    have hacc1 : c ∈ acc ∨ c = cve → c ∈ acc ++ [cve] := by
      rintro (h1 | h1)
      · exact List.mem_append_left _ h1
      · rw [h1]
        exact List.mem_append_right _ (List.mem_singleton.mpr rfl)
    have hstep : c ∈ acc ++ [cve] →
        c ∈ (if (cnt + 1) % interval = 0 && fsFail (cnt + 1) then
          (acc ++ [cve]) ++ [cve] else acc ++ [cve]) := by
      intro h1
      by_cases hc : ((cnt + 1) % interval = 0 && fsFail (cnt + 1)) = true
      · rw [if_pos hc]
        exact List.mem_append_left _ h1
      · rw [if_neg hc]
        exact h1
    rcases h with h | h
    · exact Or.inl (hstep (hacc1 (Or.inl h)))
    · rcases List.mem_cons.mp h with h1 | h1
      · exact Or.inl (hstep (hacc1 (Or.inr h1)))
      · exact Or.inr h1

/-- Conversely, the processing loop only emits records it was given. -/
theorem processLoop_mem_rev (fsFail : Nat → Bool) (interval : Nat) :
    ∀ (l : List CVERec) (cnt : Nat) (acc : List CVERec) (c : CVERec),
      c ∈ processLoop fsFail interval l cnt acc → c ∈ acc ∨ c ∈ l := by
  intro l
  induction l with
  | nil =>
    intro cnt acc c h
    rw [processLoop] at h
    exact Or.inl h
  | cons cve rest ih =>
    intro cnt acc c h
    rw [processLoop] at h
    have h2 := ih (cnt + 1) _ c h
    rcases h2 with h2 | h2
    · by_cases hc : ((cnt + 1) % interval = 0 && fsFail (cnt + 1)) = true
      · rw [if_pos hc] at h2
        rcases List.mem_append.mp h2 with h3 | h3
        · rcases List.mem_append.mp h3 with h4 | h4
          · exact Or.inl h4
          · exact Or.inr (List.mem_cons.mpr (Or.inl (List.mem_singleton.mp h4)))
        · exact Or.inr (List.mem_cons.mpr (Or.inl (List.mem_singleton.mp h3)))
      · rw [if_neg hc] at h2
        rcases List.mem_append.mp h2 with h3 | h3
        · exact Or.inl h3
        · exact Or.inr (List.mem_cons.mpr (Or.inl (List.mem_singleton.mp h3)))
    · exact Or.inr (List.mem_cons.mpr (Or.inr h2))

/-- A successful sort preserves the length, sorts by the id order, and
keeps every input record. -/
theorem sortCVEData_ok_spec (l sorted : List CVERec)
    (h : sortCVEData l = .ok sorted) :
    sorted.length = l.length ∧ List.Sorted recIdLe sorted ∧ ∀ c ∈ l, c ∈ sorted := by
  rw [sortCVEData] at h
  by_cases h1 : l.length ≤ 1
  · rw [if_pos h1] at h
    injection h with h
    subst h
    refine ⟨rfl, ?_, fun c hc => hc⟩
    cases l with
    | nil => exact List.sorted_nil
    | cons x xs =>
      cases xs with
      | nil => exact List.sorted_singleton x
      | cons y ys =>
        exfalso
        rw [List.length_cons, List.length_cons] at h1
        omega
  · rw [if_neg h1] at h
    by_cases h2 : l.all (fun r => r.id.isSome) = true
    · rw [if_pos h2] at h
      injection h with h
      subst h
      exact ⟨(List.perm_insertionSort recIdLe l).length_eq,
        List.sorted_insertionSort recIdLe l,
        fun c hc => (List.perm_insertionSort recIdLe l).mem_iff.mpr hc⟩
    · rw [if_neg h2] at h
      simp at h

/-- The sort comparator cannot throw when every record's id is present. -/
theorem sortCVEData_ok_of_ids (l : List CVERec)
    (hids : ∀ c ∈ l, (c.id).isSome = true) :
    ∃ sorted, sortCVEData l = .ok sorted := by
  rw [sortCVEData]
  by_cases h1 : l.length ≤ 1
  · rw [if_pos h1]
    exact ⟨l, rfl⟩
  · rw [if_neg h1, if_pos (List.all_eq_true.mpr hids)]
    exact ⟨_, rfl⟩

/-- A sort `TypeError` implies an id-less record in the input. -/
theorem sortCVEData_error_has_none (l : List CVERec) (e : String)
    (h : sortCVEData l = .error e) : ∃ c ∈ l, c.id = none := by
  rw [sortCVEData] at h
  by_cases h1 : l.length ≤ 1
  · rw [if_pos h1] at h
    simp at h
  · rw [if_neg h1] at h
    by_cases h2 : l.all (fun r => r.id.isSome) = true
    · rw [if_pos h2] at h
      simp at h
    · rw [List.all_eq_true] at h2
      push_neg at h2
      obtain ⟨c, hc, hne⟩ := h2
      refine ⟨c, hc, ?_⟩
      cases hcid : c.id with
      | none => rfl
      | some s => rw [hcid] at hne; simp at hne

theorem loadAllCVEs_ok_of_request (env : Env) (opts : Opts) (nb : Nat) (h0 : List Hit)
    (h : env.request [] 0 1 = some (nb, h0)) :
    ∃ cl, loadAllCVEs env opts = .ok cl := by
  rw [loadAllCVEs]
  by_cases hc : opts.useComprehensiveScraping = true
  · rw [if_pos hc]
    exact ⟨_, rfl⟩
  · rw [if_neg hc, loadCVEsStandard, h]
    exact ⟨_, rfl⟩

theorem scrape_error_of_request_none (env : Env) (opts : Opts) (fsFail : Nat → Bool)
    (h : env.request [] 0 1 = none) :
    scrapeAllCVEs env opts fsFail = .error "connectivity test failed" := by
  rw [scrapeAllCVEs, testApiConnectivity, h]

/-- C5 counterexample environment: the unfiltered page request (used by the
connectivity test and the unfiltered sweep's probe) throws, while every
facet-filtered request succeeds. -/
def c5Env : Env :=
  ⟨fun fs _ _ => if fs = [] then none else some (0, []), fun _ => .err "x", wDateParse, "t0"⟩

/-- C5 counterexample: a run-level failure is surfaced although the
upstream is *not* totally unreachable - every facet Sweep's probe (a
filtered request) would succeed; only the single unfiltered run-start
connectivity probe failed.  So "failure only when every Sweep's probe
fails" is false on the code. -/
theorem run_failure_counterexample :
    scrapeAllCVEs c5Env wOptsNoCap (fun _ => false) = .error "connectivity test failed" ∧
    c5Env.request [technologyFilters.headD ""] 0 1 = some (0, []) := by
  exact ⟨rfl, by decide⟩

/-- C5 (amended): a run-level failure is surfaced to the caller of
`scrapeAllCVEs` when the run-start connectivity probe (an unfiltered
page-zero request) fails - in particular, total upstream unreachability at
run start surfaces a failure; a run-level failure can also surface after a
successful probe, when the final sort's comparator throws on a collected
record whose `id` is absent.  Every individual sweep, page-fetch,
enrichment or validation failure degrades gracefully: any completed run's
result contains every record the load phase collected, and whenever the
probe succeeds and every collected record carries a present id (so the
comparator cannot throw) the run is guaranteed to complete with all
collected records, even if every enrichment call failed.  A failure after
a successful probe implies an id-less collected record. -/
theorem run_failure_propagation (env : Env) (opts : Opts) (fsFail : Nat → Bool) :
    (env.request [] 0 1 = none → ∃ e, scrapeAllCVEs env opts fsFail = .error e) ∧
    (∀ res, scrapeAllCVEs env opts fsFail = .ok res →
      ∀ cl, loadAllCVEs env opts = .ok cl → ∀ c ∈ cl, c ∈ res.cveData) ∧
    (∀ (nb : Nat) (h0 : List Hit) (cl : List CVERec),
      env.request [] 0 1 = some (nb, h0) →
      loadAllCVEs env opts = .ok cl → (∀ c ∈ cl, (c.id).isSome = true) →
      ∃ res, scrapeAllCVEs env opts fsFail = .ok res ∧ ∀ c ∈ cl, c ∈ res.cveData) ∧
    (∀ e, scrapeAllCVEs env opts fsFail = .error e →
      env.request [] 0 1 = none ∨
      ∃ cl, loadAllCVEs env opts = .ok cl ∧ ∃ c ∈ cl, c.id = none) := by
  refine ⟨?_, ?_, ?_, ?_⟩
  · intro hreq
    exact ⟨_, scrape_error_of_request_none env opts fsFail hreq⟩
  · intro res hres cl hcl c hc
    cases hreq : env.request [] 0 1 with
    | none =>
      rw [scrape_error_of_request_none env opts fsFail hreq] at hres
      simp at hres
    | some pr =>
      obtain ⟨nb, hits⟩ := pr
      rw [scrapeAllCVEs, testApiConnectivity] at hres
      simp only [hreq] at hres
      simp only [hcl] at hres
      by_cases hlen : cl.length = 0
      · have hnil : cl = [] := List.length_eq_zero.mp hlen
        rw [hnil] at hc
        exact absurd hc (List.not_mem_nil c)
      · rw [if_neg hlen] at hres
        cases hsort : sortCVEData (processLoop fsFail
            (if opts.checkpointInterval = 0 then 100 else opts.checkpointInterval)
            cl 0 []) with
        | error e =>
          simp only [hsort] at hres
          simp at hres
        | ok sorted =>
          simp only [hsort] at hres
          injection hres with h
          rw [← h]
          simp only
          exact (sortCVEData_ok_spec _ sorted hsort).2.2 c
            (processLoop_mem fsFail _ cl 0 [] c (Or.inr hc))
  · intro nb h0 cl hreq hcl hids
    rw [scrapeAllCVEs, testApiConnectivity]
    simp only [hreq]
    simp only [hcl]
    by_cases hlen : cl.length = 0
    · rw [if_pos hlen]
      refine ⟨⟨env.now, 0, []⟩, rfl, ?_⟩
      intro c hc
      rw [List.length_eq_zero.mp hlen] at hc
      exact absurd hc (List.not_mem_nil c)
    · rw [if_neg hlen]
      have hidsP : ∀ c ∈ processLoop fsFail
          (if opts.checkpointInterval = 0 then 100 else opts.checkpointInterval)
          cl 0 [], (c.id).isSome = true := by
        intro c hc
        rcases processLoop_mem_rev fsFail _ cl 0 [] c hc with h | h
        · exact absurd h (List.not_mem_nil c)
        · exact hids c h
      obtain ⟨sorted, hsort⟩ := sortCVEData_ok_of_ids _ hidsP
      simp only [hsort]
      refine ⟨_, rfl, ?_⟩
      intro c hc
      simp only
      exact (sortCVEData_ok_spec _ sorted hsort).2.2 c
        (processLoop_mem fsFail _ cl 0 [] c (Or.inr hc))
  · intro e herr
    cases hreq : env.request [] 0 1 with
    | none => exact Or.inl rfl
    | some pr =>
      obtain ⟨nb, hits⟩ := pr
      right
      obtain ⟨cl, hcl⟩ := loadAllCVEs_ok_of_request env opts nb hits hreq
      refine ⟨cl, hcl, ?_⟩
      rw [scrapeAllCVEs, testApiConnectivity] at herr
      simp only [hreq] at herr
      simp only [hcl] at herr
      by_cases hlen : cl.length = 0
      · rw [if_pos hlen] at herr
        simp at herr
      · rw [if_neg hlen] at herr
        cases hsort : sortCVEData (processLoop fsFail
            (if opts.checkpointInterval = 0 then 100 else opts.checkpointInterval)
            cl 0 []) with
        | ok sorted =>
          simp only [hsort] at herr
          simp at herr
        | error e2 =>
          obtain ⟨c, hcP, hcid⟩ := sortCVEData_error_has_none _ e2 hsort
          rcases processLoop_mem_rev fsFail _ cl 0 [] c hcP with h | h
          · exact absurd h (List.not_mem_nil c)
          · exact ⟨c, h, hcid⟩

/-- An environment in which every page request succeeds with zero hits. -/
def wEnvZero : Env := ⟨fun _ _ _ => some (0, []), fun _ => .err "x", wDateParse, "t0"⟩

/-- Witness for the amended C5: with a reachable upstream returning no hits
the run completes and contains the (empty) collected set, and with the
unfiltered probe failing a run-level error is surfaced. -/
theorem run_failure_propagation_witness :
    wEnvZero.request [] 0 1 = some (0, []) ∧
    loadAllCVEs wEnvZero wOptsNoCap = .ok [] ∧
    (∃ res, scrapeAllCVEs wEnvZero wOptsNoCap (fun _ => false) = .ok res ∧
      ∀ c ∈ ([] : List CVERec), c ∈ res.cveData) ∧
    (c5Env.request [] 0 1 = none ∧
      ∃ e, scrapeAllCVEs c5Env wOptsNoCap (fun _ => false) = .error e) := by
  refine ⟨rfl, rfl, ?_, rfl, ?_⟩
  · exact (run_failure_propagation wEnvZero wOptsNoCap (fun _ => false)).2.2.1 0 [] [] rfl rfl
      (fun c hc => absurd hc (List.not_mem_nil c))
  · exact (run_failure_propagation c5Env wOptsNoCap (fun _ => false)).1 rfl

/-- C10: whenever `scrapeAllCVEs` completes without a run-level error, the
result satisfies `totalCVEs = cveData.length`, and `cveData` is sorted in
ascending lexicographic order of the `id` field (the order of
`a.id.localeCompare(b.id)`); this also holds when zero records were
collected (`cveData = []`, `totalCVEs = 0`). -/
theorem scrape_result_count_and_sorted (env : Env) (opts : Opts) (fsFail : Nat → Bool)
    (res : RunResult) (hres : scrapeAllCVEs env opts fsFail = .ok res) :
    res.totalCVEs = res.cveData.length ∧ List.Sorted recIdLe res.cveData ∧
    (res.cveData = [] → res.totalCVEs = 0) := by
  rw [scrapeAllCVEs] at hres
  cases hconn : testApiConnectivity env with
  | error e =>
    rw [hconn] at hres
    simp at hres
  | ok nb =>
    simp only [hconn] at hres
    cases hload : loadAllCVEs env opts with
    | error e =>
      rw [hload] at hres
      simp at hres
    | ok cveList =>
      simp only [hload] at hres
      by_cases hlen : cveList.length = 0
      · rw [if_pos hlen] at hres
        injection hres with h
        rw [← h]
        exact ⟨rfl, List.sorted_nil, fun _ => rfl⟩
      · rw [if_neg hlen] at hres
        cases hsort : sortCVEData (processLoop fsFail
            (if opts.checkpointInterval = 0 then 100 else opts.checkpointInterval)
            cveList 0 []) with
        | error e =>
          simp only [hsort] at hres
          simp at hres
        | ok sorted =>
          simp only [hsort] at hres
          injection hres with h
          rw [← h]
          obtain ⟨hlen2, hsorted, _⟩ := sortCVEData_ok_spec _ sorted hsort
          refine ⟨?_, hsorted, ?_⟩
          · simp only
            exact hlen2.symm
          · intro hnil
            simp only at hnil ⊢
            rw [← hlen2, hnil]
            rfl

/-- Witness for C10: the zero-hit run returns `totalCVEs = 0` with an empty,
trivially sorted `cveData`. -/
theorem scrape_result_count_and_sorted_witness :
    scrapeAllCVEs wEnvZero wOptsNoCap (fun _ => false) = .ok ⟨"t0", 0, []⟩ ∧
    ((⟨"t0", 0, []⟩ : RunResult).totalCVEs = (⟨"t0", 0, []⟩ : RunResult).cveData.length ∧
      List.Sorted recIdLe (⟨"t0", 0, []⟩ : RunResult).cveData) := by
  refine ⟨rfl, ?_⟩
  have h := scrape_result_count_and_sorted wEnvZero wOptsNoCap (fun _ => false)
    ⟨"t0", 0, []⟩ rfl
  exact ⟨h.1, h.2.1⟩

/-! ## C9 - checkpoint save / load-latest round-trip -/

/-- C9: with checkpointing enabled, after `saveCheckpoint(records, i)` at a
time strictly later than every existing checkpoint file (the `Date.now()`
filename keys are monotone in creation time), `loadLatestCheckpoint()`
sorts the listed checkpoint files newest-first by the time encoded in their
names and returns the just-saved checkpoint: its record list equals the
saved set, its `processedCount` equals the number of saved records, and its
timestamp is the save-time ISO string; with no checkpoint on disk it
returns `null` as a normal, non-error outcome. -/
theorem checkpoint_roundtrip (fs : FsState) (recs : List CVERec) (idx nowMs : Nat)
    (nowIso : String) (hfresh : ∀ e ∈ fs, e.1 < nowMs) :
    loadLatestCheckpoint (saveCheckpoint true nowMs nowIso fs recs idx) =
      some ⟨nowIso, recs.length, idx, recs⟩ ∧
    loadLatestCheckpoint [] = none := by
  refine ⟨?_, rfl⟩
  rw [saveCheckpoint, if_pos rfl]
  rw [loadLatestCheckpoint]
  cases hs : List.insertionSort ckGe
      (fs ++ [(nowMs, ⟨nowIso, recs.length, idx, recs⟩)]) with
  | nil =>
    have hperm := List.perm_insertionSort ckGe
      (fs ++ [(nowMs, ⟨nowIso, recs.length, idx, recs⟩)])
    rw [hs] at hperm
    have hnil := hperm.symm.eq_nil
    simp at hnil
  | cons hd t =>
    have hperm := List.perm_insertionSort ckGe
      (fs ++ [(nowMs, ⟨nowIso, recs.length, idx, recs⟩)])
    rw [hs] at hperm
    have hsorted := List.sorted_insertionSort ckGe
      (fs ++ [(nowMs, ⟨nowIso, recs.length, idx, recs⟩)])
    rw [hs] at hsorted
    have hmem_cp : (nowMs, (⟨nowIso, recs.length, idx, recs⟩ : CheckpointFile)) ∈ hd :: t :=
      hperm.mem_iff.mpr (List.mem_append_right _ (List.mem_singleton.mpr rfl))
    have hhd_mem : hd ∈ fs ++ [(nowMs, (⟨nowIso, recs.length, idx, recs⟩ : CheckpointFile))] :=
      hperm.mem_iff.mp (List.mem_cons_self hd t)
    rcases List.mem_append.mp hhd_mem with hin | hsing
    · exfalso
      have hlt := hfresh hd hin
      rcases List.mem_cons.mp hmem_cp with heq | hmem_t
      · rw [← heq] at hlt
        exact lt_irrefl nowMs hlt
      · have hrel := (List.sorted_cons.mp hsorted).1 _ hmem_t
        rw [ckGe] at hrel
        omega
    · simp only [List.mem_singleton] at hsing
      rw [hsing]

/-- A pre-existing checkpoint file, older than the save in the witness. -/
def wOldCp : Nat × CheckpointFile := (5, ⟨"t-old", 0, 0, []⟩)

/-- Witness for C9: saving one record over an older checkpoint and loading
the latest returns the saved record list with `processedCount = 1`. -/
theorem checkpoint_roundtrip_witness :
    (∀ e ∈ [wOldCp], e.1 < 10) ∧
    loadLatestCheckpoint (saveCheckpoint true 10 "t-new" [wOldCp] [wRec] 1) =
      some ⟨"t-new", [wRec].length, 1, [wRec]⟩ ∧
    loadLatestCheckpoint [] = none := by
  refine ⟨by decide, ?_, ?_⟩
  · exact (checkpoint_roundtrip [wOldCp] [wRec] 1 10 "t-new" (by decide)).1
  · exact (checkpoint_roundtrip [wOldCp] [wRec] 1 10 "t-new" (by decide)).2
